import Mathlib

/-!
Verification development for the meal-sharing web application
(`app.py` together with the schema in `database/init_db.py`).

The relational store is embedded shallowly: each table is a list of
records in insertion (rowid) order.  The two listing queries, the
detail query and the two write paths of `app.py` are translated into
executable Lean functions; SQL joins become nested `flatMap`, SQL
`GROUP BY` becomes grouping by a key record, SQL aggregates
(`MIN`, `GROUP_CONCAT(DISTINCT …)`, `COALESCE`) become explicit list
functions, and SQL three-valued logic on NULL becomes `Option`
matching (a NULL comparison counts as false in a WHERE clause).
String comparison (`MIN` over TEXT, `ORDER BY`) is byte order of the
character lists, matching the BINARY collation of the store.
-/

namespace MealShare

/-- Byte-order (lexicographic) comparison of character lists, the
BINARY collation used by the store for TEXT values. -/
def charListLe : List Char → List Char → Bool
  | [], _ => true
  | _ :: _, [] => false
  | a :: as, b :: bs => decide (a < b) || (decide (a = b) && charListLe as bs)

/-- TEXT-value comparison on strings. -/
def strLe (s t : String) : Bool := charListLe s.toList t.toList

/-- SQL aggregate MIN over a column of TEXT values: `none` on the
empty collection, otherwise the least string in byte order. -/
def minString : List String → Option String
  | [] => none
  | s :: rest =>
    match minString rest with
    | none => some s
    | some t => some (if strLe s t then s else t)

/-- SQL aggregate MIN over a nullable TEXT column: NULL inputs are
ignored, and the result is NULL when every input is NULL. -/
def minOptString (l : List (Option String)) : Option String :=
  minString (l.filterMap id)

/-- NULL padding of a LEFT JOIN: when the inner side has no matching
row, a single all-NULL row is produced instead. -/
def padNull {α : Type} : List α → List (Option α)
  | [] => [none]
  | l => l.map some

/-- Accumulator version of first-occurrence deduplication: keeps the
elements of the list not in `seen`, first occurrence only. -/
def dedupAux {α : Type} [DecidableEq α] : List α → List α → List α
  | _, [] => []
  | seen, x :: xs =>
    if x ∈ seen then dedupAux seen xs else x :: dedupAux (x :: seen) xs

/-- First-occurrence deduplication, the DISTINCT of an aggregate. -/
def dedupFirst {α : Type} [DecidableEq α] (l : List α) : List α :=
  dedupAux [] l

/-- Whether `pat` is a prefix of `l`. -/
def startsWithSeq : List Char → List Char → Bool
  | [], _ => true
  | _ :: _, [] => false
  | p :: ps, c :: cs => decide (p = c) && startsWithSeq ps cs

/-- Whether `pat` occurs as a contiguous run inside `l`. -/
def containsSeq (pat : List Char) : List Char → Bool
  | [] => pat.isEmpty
  | c :: cs => startsWithSeq pat (c :: cs) || containsSeq pat cs

/-- ASCII lowercasing of a string, as the LIKE operator of the store
folds case for ASCII letters only. -/
def lowerChars (s : String) : List Char := s.toList.map Char.toLower

/-- The condition `column LIKE ?` with the parameter bound to the
pattern `pat` wrapped in two `%` wildcards: a case-insensitive
substring test. -/
def likeContains (pat s : String) : Bool :=
  containsSeq (lowerChars pat) (lowerChars s)

/-- Leading and trailing whitespace removal on character lists. -/
def trimChars (l : List Char) : List Char :=
  ((l.dropWhile Char.isWhitespace).reverse.dropWhile Char.isWhitespace).reverse

/-- The `strip` operation applied by the handlers to form and query
string values. -/
def pyStrip (s : String) : String := String.mk (trimChars s.toList)

/-- Split a character list at the first occurrence of a hyphen,
returning the parts before and after it, or `none` when the list has
no hyphen; this is `split` with a maximum of one split. -/
def splitFirstHyphen : List Char → Option (List Char × List Char)
  | [] => none
  | c :: cs =>
    if c = '-' then some ([], cs)
    else
      match splitFirstHyphen cs with
      | none => none
      | some (a, b) => some (c :: a, b)

/-- Split a character list on every occurrence of a separator
character. -/
def splitOnChar (c : Char) : List Char → List (List Char)
  | [] => [[]]
  | d :: ds =>
    if d = c then [] :: splitOnChar c ds
    else
      match splitOnChar c ds with
      | [] => [[d]]
      | l :: ls => (d :: l) :: ls

/-- Join a list of strings with comma separators; the empty list gives
the empty string, so this is `COALESCE(GROUP_CONCAT(…), '')`. -/
def joinWithComma : List String → String
  | [] => ""
  | [s] => s
  | s :: t :: rest => s ++ "," ++ joinWithComma (t :: rest)

/-! ## Data model

One structure per table of `database/init_db.py`, holding the columns
the application reads or writes.  Nullable columns are `Option`.
Timestamp defaults (`created_at`) are opaque strings. -/

/-- A row of the `users` table. -/
structure User where
  user_id : Nat
  name : String
deriving DecidableEq, Repr

/-- A row of the `recipes` table. -/
structure Recipe where
  recipe_id : Nat
  name : String
  instructions : String
  prep_time_minutes : Option Int
  cost_estimate : Option Rat
  author_id : Option Nat
  created_at : String
deriving DecidableEq, Repr

/-- A row of the `images` table. -/
structure Image where
  image_id : Nat
  recipe_id : Nat
  file_path : String
  alt_text : Option String
deriving DecidableEq, Repr

/-- A row of the `dietary_tags` table. -/
structure DietaryTag where
  tag_id : Nat
  tag_name : String
deriving DecidableEq, Repr

/-- A row of the `ingredients` table. -/
structure Ingredient where
  ingredient_id : Nat
  name : String
deriving DecidableEq, Repr

/-- A row of the `recipe_ingredients` join table. -/
structure RecipeIngredient where
  recipe_id : Nat
  ingredient_id : Nat
  quantity : String
deriving DecidableEq, Repr

/-- A row of the `reviews` table. -/
structure Review where
  review_id : Nat
  recipe_id : Nat
  user_id : Option Nat
  rating : Int
  comment : String
  created_at : String
deriving DecidableEq, Repr

/-- The relational store: each table as a list in rowid order. -/
structure Db where
  users : List User
  recipes : List Recipe
  images : List Image
  dietary_tags : List DietaryTag
  recipe_tags : List (Nat × Nat)
  ingredients : List Ingredient
  recipe_ingredients : List RecipeIngredient
  reviews : List Review
deriving DecidableEq, Repr

/-! ## Listing queries

The two listing handlers (`index`, `recipes`) run the same SELECT
shape: recipes LEFT JOIN a one-row-per-recipe image subquery, LEFT
JOIN users, LEFT JOIN recipe_tags, LEFT JOIN dietary_tags (and, for
the filtered view, LEFT JOIN recipe_ingredients LEFT JOIN
ingredients), then GROUP BY all the non-aggregated selected columns
and ORDER BY recipe name. -/

/-- The images of one recipe, in table order. -/
def recipeImages (db : Db) (rid : Nat) : List Image :=
  db.images.filter (fun i => decide (i.recipe_id = rid))

/-- The rows of the image subquery
`SELECT recipe_id, MIN(file_path), MIN(alt_text) FROM images GROUP BY
recipe_id` that match one recipe: at most one row, present exactly
when the recipe has images.  Note that the two MIN aggregates are
computed independently of each other. -/
def imgRows (db : Db) (rid : Nat) : List (String × Option String) :=
  match minString ((recipeImages db rid).map (·.file_path)) with
  | none => []
  | some m => [(m, minOptString ((recipeImages db rid).map (·.alt_text)))]

/-- Names of users matching the author id of a recipe, for the LEFT
JOIN on `users`; a NULL author id matches no user. -/
def authorNames (db : Db) (aid : Option Nat) : List String :=
  match aid with
  | none => []
  | some a => (db.users.filter (fun u => decide (u.user_id = a))).map (·.name)

/-- The `recipe_tags` rows of one recipe, in table order. -/
def rtRows (db : Db) (rid : Nat) : List (Nat × Nat) :=
  db.recipe_tags.filter (fun p => decide (p.1 = rid))

/-- Tag names matching a tag id, for the join on `dietary_tags`. -/
def tagNamesOf (db : Db) (tid : Nat) : List String :=
  (db.dietary_tags.filter (fun dt => decide (dt.tag_id = tid))).map (·.tag_name)

/-- The dietary-tag side of the join for one recipe: the value of
`dt.tag_name` on each joined row produced by
`LEFT JOIN recipe_tags rt … LEFT JOIN dietary_tags dt …`. -/
def tagSide (db : Db) (rid : Nat) : List (Option String) :=
  if (rtRows db rid).isEmpty then [none]
  else (rtRows db rid).flatMap (fun p => padNull (tagNamesOf db p.2))

/-- The `recipe_ingredients` rows of one recipe, in table order. -/
def riRows (db : Db) (rid : Nat) : List RecipeIngredient :=
  db.recipe_ingredients.filter (fun p => decide (p.recipe_id = rid))

/-- Ingredient names matching an ingredient id, for the join on
`ingredients`. -/
def ingNamesOf (db : Db) (iid : Nat) : List String :=
  (db.ingredients.filter (fun i => decide (i.ingredient_id = iid))).map (·.name)

/-- The ingredient side of the join for one recipe: the value of
`ing.name` on each joined row produced by
`LEFT JOIN recipe_ingredients ri … LEFT JOIN ingredients ing …`. -/
def ingSide (db : Db) (rid : Nat) : List (Option String) :=
  if (riRows db rid).isEmpty then [none]
  else (riRows db rid).flatMap (fun p => padNull (ingNamesOf db p.ingredient_id))

/-- A joined row before grouping, carrying the selected columns and
the ingredient-name column used by the WHERE clause. -/
structure JoinRow where
  recipe : Recipe
  image_url : Option String
  image_alt : Option String
  author_name : Option String
  tag_name : Option String
  ing_name : Option String
deriving DecidableEq, Repr

/-- The joined rows one recipe contributes to the FROM clause of the
unfiltered home-page query (no ingredient join, so the ingredient
column is NULL throughout). -/
def indexBlock (db : Db) (r : Recipe) : List JoinRow :=
  (padNull (imgRows db r.recipe_id)).flatMap (fun io =>
    (padNull (authorNames db r.author_id)).flatMap (fun uo =>
      (tagSide db r.recipe_id).map (fun t =>
        ⟨r, io.map Prod.fst, io.bind Prod.snd, uo, t, none⟩)))

/-- The joined rows one recipe contributes to the FROM clause of the
filtered browse query, which additionally joins the ingredient
tables. -/
def recipeBlock (db : Db) (r : Recipe) : List JoinRow :=
  (padNull (imgRows db r.recipe_id)).flatMap (fun io =>
    (padNull (authorNames db r.author_id)).flatMap (fun uo =>
      (tagSide db r.recipe_id).flatMap (fun t =>
        (ingSide db r.recipe_id).map (fun i =>
          ⟨r, io.map Prod.fst, io.bind Prod.snd, uo, t, i⟩))))

/-- The FROM clause of the home-page query: nested-loop join over all
recipes. -/
def indexFrom (db : Db) : List JoinRow :=
  db.recipes.flatMap (indexBlock db)

/-- The FROM clause of the browse query. -/
def recipesFrom (db : Db) : List JoinRow :=
  db.recipes.flatMap (recipeBlock db)

/-- The optional clause `AND dt.tag_name = ?`: absent (always true)
when the stripped tag argument is empty; a NULL tag column never
matches. -/
def tagOkB (tag : String) (t : Option String) : Bool :=
  decide (tag = "") || decide (t = some tag)

/-- The optional clause
`AND (r.prep_time_minutes IS NULL OR r.prep_time_minutes <= ?)`:
absent when no prep-time argument was supplied. -/
def prepOkB (maxPrep : Option Int) (r : Recipe) : Bool :=
  match maxPrep with
  | none => true
  | some t =>
    match r.prep_time_minutes with
    | none => true
    | some p => decide (p ≤ t)

/-- The optional clause `AND ing.name LIKE ?`: absent when the
stripped ingredient argument is empty; a NULL ingredient column never
matches. -/
def ingOkB (ingredient : String) (i : Option String) : Bool :=
  decide (ingredient = "") ||
    match i with
    | none => false
    | some n => likeContains ingredient n

/-- The WHERE clause of the browse query, assembled from the supplied
filters exactly as the handler appends the three optional
conditions; `tag` and `ingredient` are the already-stripped request
arguments, with the empty string meaning that the filter is absent. -/
def whereCond (tag : String) (maxPrep : Option Int) (ingredient : String)
    (j : JoinRow) : Bool :=
  tagOkB tag j.tag_name && prepOkB maxPrep j.recipe && ingOkB ingredient j.ing_name

/-- The GROUP BY key of the listing queries: every selected
non-aggregated column. -/
structure GroupKey where
  recipe_id : Nat
  name : String
  instructions : String
  prep_time_minutes : Option Int
  cost_estimate : Option Rat
  created_at : String
  image_url : Option String
  image_alt : Option String
  author_name : Option String
deriving DecidableEq, Repr

/-- The GROUP BY key of a joined row. -/
def rowKey (j : JoinRow) : GroupKey :=
  ⟨j.recipe.recipe_id, j.recipe.name, j.recipe.instructions, j.recipe.prep_time_minutes,
   j.recipe.cost_estimate, j.recipe.created_at, j.image_url, j.image_alt,
   j.author_name⟩

/-- The REAL literal `4.5` selected as `avg_rating`, in normalized
rational form so that the development stays kernel-computable; it
equals the decimal literal `4.5`, see `ratNineHalves_eq`. -/
def ratNineHalves : Rat := ⟨9, 2, by norm_num, by norm_num⟩

/-- An output row of the listing queries. -/
structure ListingRow where
  recipe_id : Nat
  name : String
  instructions : String
  prep_time_minutes : Option Int
  cost_estimate : Option Rat
  created_at : String
  image_url : Option String
  image_alt : Option String
  avg_rating : Rat
  review_count : Int
  tags : String
  author_name : Option String
deriving DecidableEq, Repr

/-- The aggregated tag column of one group:
`GROUP_CONCAT(DISTINCT dt.tag_name)` over the rows of the group,
skipping NULL values. -/
def groupTags (grp : List JoinRow) : List String :=
  dedupFirst (grp.filterMap (·.tag_name))

/-- The output row of one group, with the two selected constants
`4.5 AS avg_rating` and `0 AS review_count`. -/
def mkListingRow (k : GroupKey) (grp : List JoinRow) : ListingRow :=
  ⟨k.recipe_id, k.name, k.instructions, k.prep_time_minutes, k.cost_estimate,
   k.created_at, k.image_url, k.image_alt, ratNineHalves, 0,
   joinWithComma (groupTags grp), k.author_name⟩

/-- GROUP BY evaluation: one output row per distinct key, keys in
first-occurrence order of the joined rows. -/
def groupedRows (rows : List JoinRow) : List ListingRow :=
  (dedupFirst (rows.map rowKey)).map
    (fun k => mkListingRow k (rows.filter (fun j => decide (rowKey j = k))))

/-- Sorted insertion by recipe name, placing the inserted row before
later rows of equal name. -/
def insertByName (row : ListingRow) : List ListingRow → List ListingRow
  | [] => [row]
  | r :: rs =>
    if strLe row.name r.name then row :: r :: rs else r :: insertByName row rs

/-- ORDER BY r.name: a name-sorted permutation of the grouped rows. -/
def sortByName : List ListingRow → List ListingRow
  | [] => []
  | r :: rs => insertByName r (sortByName rs)

/-- The home-page handler `index`: the unfiltered listing query. -/
def index (db : Db) : List ListingRow :=
  sortByName (groupedRows (indexFrom db))

/-- The browse handler `recipes`: the listing query with the three
optional filters.  The raw `tag` and `ingredient` request arguments
are stripped first, exactly as the handler does; a stripped-empty
string or a `none` prep-time argument means the corresponding
condition is not appended to the query. -/
def recipes (db : Db) (tag : String) (max_prep_time : Option Int)
    (ingredient : String) : List ListingRow :=
  sortByName (groupedRows
    ((recipesFrom db).filter
      (whereCond (pyStrip tag) max_prep_time (pyStrip ingredient))))

/-! ## Detail page -/

/-- Rows of the detail-page review query, each review of the recipe
joined on the left with the name of its reviewer. -/
def reviewRows (db : Db) (rid : Nat) : List (Review × Option String) :=
  (db.reviews.filter (fun v => decide (v.recipe_id = rid))).flatMap
    (fun v => (padNull (authorNames db v.user_id)).map (fun n => (v, n)))

/-- Sorted insertion for the image list, ascending by image id. -/
def insertImageById (im : Image) : List Image → List Image
  | [] => [im]
  | j :: js =>
    if im.image_id ≤ j.image_id then im :: j :: js else j :: insertImageById im js

/-- ORDER BY image_id over the images of a recipe. -/
def sortImagesById : List Image → List Image
  | [] => []
  | j :: js => insertImageById j (sortImagesById js)

/-- Sorted insertion for the ingredient list, ascending by name. -/
def insertIngByName (p : String × String) :
    List (String × String) → List (String × String)
  | [] => [p]
  | q :: qs => if strLe p.1 q.1 then p :: q :: qs else q :: insertIngByName p qs

/-- ORDER BY ingredient name over the ingredient rows of a recipe. -/
def sortIngByName : List (String × String) → List (String × String)
  | [] => []
  | q :: qs => insertIngByName q (sortIngByName qs)

/-- Sorted insertion for the review list, descending by creation
time. -/
def insertReviewDesc (p : Review × Option String) :
    List (Review × Option String) → List (Review × Option String)
  | [] => [p]
  | q :: qs =>
    if strLe q.1.created_at p.1.created_at then p :: q :: qs
    else q :: insertReviewDesc p qs

/-- ORDER BY created_at DESC over the review rows of a recipe. -/
def sortReviewsDesc : List (Review × Option String) → List (Review × Option String)
  | [] => []
  | q :: qs => insertReviewDesc q (sortReviewsDesc qs)

/-- Sorted insertion for the user roster, ascending by name. -/
def insertUserByName (u : User) : List User → List User
  | [] => [u]
  | v :: vs => if strLe u.name v.name then u :: v :: vs else v :: insertUserByName u vs

/-- ORDER BY name over the users table. -/
def sortUsersByName : List User → List User
  | [] => []
  | v :: vs => insertUserByName v (sortUsersByName vs)

/-- The ingredient rows of the detail page: each `recipe_ingredients`
row of the recipe inner-joined with the ingredient name. -/
def detailIngredients (db : Db) (rid : Nat) : List (String × String) :=
  (riRows db rid).flatMap
    (fun p => (ingNamesOf db p.ingredient_id).map (fun n => (n, p.quantity)))

/-- Response of the detail handler: either the rendered detail page,
or the not-found recovery, which flashes the error notice
`Recipe not found` and redirects to the listing view `/`. -/
inductive DetailResult where
  | notFound
  | page (recipe : Recipe) (author_name : Option String) (images : List Image)
      (reviews : List (Review × Option String))
      (ingredients : List (String × String)) (users : List User)
deriving DecidableEq, Repr

/-- The handler `recipe_detail`: looks the recipe up by id (the first
matching row, as `fetchone` on the detail query) and either renders
the page or recovers from recipe-not-found.  It writes nothing, so
the store is returned unchanged on every path. -/
def recipe_detail (db : Db) (rid : Nat) : Db × DetailResult :=
  match (db.recipes.filter (fun r => decide (r.recipe_id = rid))).head? with
  | none => (db, .notFound)
  | some r =>
    (db, .page r ((authorNames db r.author_id).head?)
      (sortImagesById (recipeImages db rid))
      (sortReviewsDesc (reviewRows db rid))
      (sortIngByName (detailIngredients db rid))
      (sortUsersByName db.users))

/-! ## Write path: create recipe -/

/-- The fields of the create-recipe form.  Integer and decimal fields
arrive already converted (`none` when absent or unparseable, as the
`type=` converters of the request layer return); string fields arrive
raw and are stripped by the handler. -/
structure RecipeForm where
  name : String
  instructions : String
  prep_time : Option Int
  cost_estimate : Option Rat
  author_id : Option Nat
  image_url : String
  image_alt : String
  ingredients_text : String
  tags : List String
deriving DecidableEq, Repr

/-- Response of the create-recipe handler: on validation failure the
creation form is rendered again with an error notice; on success the
response redirects to the detail view of the new recipe with a
success notice. -/
inductive AddRecipeResult where
  | formError
  | redirectDetail (recipe_id : Nat)
deriving DecidableEq, Repr

/-- The rowid the next inserted recipe receives. -/
def nextRecipeId (db : Db) : Nat :=
  (db.recipes.map (·.recipe_id)).foldr max 0 + 1

/-- The rowid the next inserted image receives. -/
def nextImageId (db : Db) : Nat :=
  (db.images.map (·.image_id)).foldr max 0 + 1

/-- The rowid the next inserted ingredient receives. -/
def nextIngredientId (db : Db) : Nat :=
  (db.ingredients.map (·.ingredient_id)).foldr max 0 + 1

/-- The rowid the next inserted review receives. -/
def nextReviewId (db : Db) : Nat :=
  (db.reviews.map (·.review_id)).foldr max 0 + 1

/-- One ingredient line, already stripped: split on the first hyphen
into a stripped name and a stripped quantity when the line has a
hyphen, otherwise the whole line is the name and the quantity is
empty. -/
def parseIngredientLine (line : List Char) : List Char × List Char :=
  match splitFirstHyphen line with
  | some (a, b) => (trimChars a, trimChars b)
  | none => (trimChars line, [])

/-- The parsed ingredient list of the form text: nothing when the
stripped text is empty, otherwise one entry per stripped non-empty
line, each split by `parseIngredientLine`, skipping entries whose
name comes out empty.  Lines are separated by the newline
character. -/
def parsedIngredients (text : String) : List (String × String) :=
  if pyStrip text = "" then []
  else
    (((splitOnChar '\n' (pyStrip text).toList).map trimChars).filter
        (fun l => !l.isEmpty)).filterMap
      (fun line =>
        let p := parseIngredientLine line
        if p.1.isEmpty then none else some (String.mk p.1, String.mk p.2))

/-- `INSERT OR IGNORE INTO ingredients (name) VALUES (?)`: the UNIQUE
constraint on the name makes the insert a no-op when the name already
exists. -/
def insertIngredientIfAbsent (db : Db) (nm : String) : Db :=
  if db.ingredients.any (fun i => decide (i.name = nm)) then db
  else { db with ingredients := db.ingredients ++ [⟨nextIngredientId db, nm⟩] }

/-- `SELECT ingredient_id FROM ingredients WHERE name = ?` with
`fetchone`: the id of the first row carrying the name. -/
def lookupIngredientId (db : Db) (nm : String) : Option Nat :=
  (((db.ingredients.filter (fun i => decide (i.name = nm))).map
    (·.ingredient_id))).head?

/-- `INSERT OR IGNORE INTO recipe_ingredients …`: the composite
primary key (recipe, ingredient) makes the insert a no-op when the
association already exists. -/
def insertRecipeIngredient (db : Db) (rid iid : Nat) (qty : String) : Db :=
  if db.recipe_ingredients.any
      (fun p => decide (p.recipe_id = rid) && decide (p.ingredient_id = iid)) then db
  else
    { db with recipe_ingredients := db.recipe_ingredients ++ [⟨rid, iid, qty⟩] }

/-- Processing of one parsed ingredient line: ensure the ingredient
exists, look its id up, then associate it with the recipe; a failed
lookup skips the line. -/
def addIngredientLine (rid : Nat) (db : Db) (p : String × String) : Db :=
  let db1 := insertIngredientIfAbsent db p.1
  match lookupIngredientId db1 p.1 with
  | none => db1
  | some iid => insertRecipeIngredient db1 rid iid p.2

/-- Processing of one selected tag id string: parse it as a number
(skipping unparseable values, as the handler catches the conversion
error and continues) and `INSERT OR IGNORE` the association; the
store enforces no foreign key here, so the tag id is not checked
against `dietary_tags`. -/
def insertRecipeTag (rid : Nat) (db : Db) (tidStr : String) : Db :=
  match tidStr.toNat? with
  | none => db
  | some tid =>
    if db.recipe_tags.any (fun p => decide (p.1 = rid) && decide (p.2 = tid)) then db
    else { db with recipe_tags := db.recipe_tags ++ [(rid, tid)] }

/-- `INSERT INTO recipes …` with the stripped and converted form
fields; the new row receives the next rowid.  A zero author selection
is treated as no author, as the handler replaces a falsy converted
value by NULL.  The timestamp column defaults are opaque and modelled
as the empty string. -/
def insertRecipeRow (db : Db) (f : RecipeForm) : Db :=
  { db with recipes := db.recipes ++
    [⟨nextRecipeId db, pyStrip f.name, pyStrip f.instructions, f.prep_time,
      f.cost_estimate,
      (match f.author_id with
        | some 0 => none
        | x => x), ""⟩] }

/-- `INSERT INTO images …` when an image URL was provided, with the
recipe name as fallback alt text. -/
def insertImageRow (rid : Nat) (name url alt : String) (db : Db) : Db :=
  if url = "" then db
  else { db with images := db.images ++
    [⟨nextImageId db, rid, url, some (if alt = "" then name else alt)⟩] }

/-- The create-recipe handler `add_recipe` on a POST request: strip
and validate the required fields, then insert the recipe row, the
optional image row, the tag associations and the parsed ingredient
lines, in that order; the new rowid (`lastrowid` in the handler)
threads through all the inserts and the final redirect. -/
def add_recipe (db : Db) (f : RecipeForm) : Db × AddRecipeResult :=
  if pyStrip f.name = "" ∨ pyStrip f.instructions = "" then (db, .formError)
  else
    ((parsedIngredients f.ingredients_text).foldl
      (addIngredientLine (nextRecipeId db))
      (f.tags.foldl (insertRecipeTag (nextRecipeId db))
        (insertImageRow (nextRecipeId db) (pyStrip f.name) (pyStrip f.image_url)
          (pyStrip f.image_alt) (insertRecipeRow db f))),
     .redirectDetail (nextRecipeId db))

/-! ## Write path: create review -/

/-- The fields of the review form: the converted rating and user id
(`none` when absent or unparseable) and the raw comment text. -/
structure ReviewForm where
  rating : Option Int
  comment : String
  user_id : Option Nat
deriving DecidableEq, Repr

/-- Response of the create-review handler: a redirect back to the
detail view of the recipe, carrying either an error notice or a
success notice. -/
inductive AddReviewResult where
  | errorRedirect (recipe_id : Nat)
  | successRedirect (recipe_id : Nat)
deriving DecidableEq, Repr

/-- The create-review handler `add_review`: the rating must be truthy
(present and non-zero) and within 1..5, and the reviewer id must be
truthy (present and non-zero); any failure redirects with an error
notice and writes nothing, success inserts exactly one review row and
redirects with a success notice. -/
def add_review (db : Db) (rid : Nat) (f : ReviewForm) : Db × AddReviewResult :=
  match f.rating with
  | none => (db, .errorRedirect rid)
  | some rv =>
    if rv = 0 ∨ rv < 1 ∨ rv > 5 then (db, .errorRedirect rid)
    else
      match f.user_id with
      | none => (db, .errorRedirect rid)
      | some uv =>
        if uv = 0 then (db, .errorRedirect rid)
        else
          ({ db with reviews := db.reviews ++
            [⟨nextReviewId db, rid, some uv, rv, pyStrip f.comment, ""⟩] },
           .successRedirect rid)

/-! ## Spec-side filter predicates

These predicates follow the wording of the specification for the
filtered listing (a recipe *satisfies* a supplied filter), to be
compared with what the query returns. -/

/-- Spec-side: the recipe carries a dietary-tag association whose tag
is named `tag`. -/
def specHasTagName (db : Db) (rid : Nat) (tag : String) : Prop :=
  ∃ p ∈ db.recipe_tags, p.1 = rid ∧
    ∃ dt ∈ db.dietary_tags, dt.tag_id = p.2 ∧ dt.tag_name = tag

instance (db : Db) (rid : Nat) (tag : String) :
    Decidable (specHasTagName db rid tag) := by
  unfold specHasTagName; infer_instance

/-- Spec-side: the recipe carries an ingredient association whose
ingredient name matches the filter text case-insensitively as a
substring. -/
def specHasIngredientLike (db : Db) (rid : Nat) (pat : String) : Prop :=
  ∃ ri ∈ db.recipe_ingredients, ri.recipe_id = rid ∧
    ∃ ing ∈ db.ingredients, ing.ingredient_id = ri.ingredient_id ∧
      likeContains pat ing.name = true

instance (db : Db) (rid : Nat) (pat : String) :
    Decidable (specHasIngredientLike db rid pat) := by
  unfold specHasIngredientLike; infer_instance

/-- Spec-side: the recipe satisfies every supplied filter (an absent
filter imposes no constraint; a null prep time is never excluded by
the prep-time filter).  The `tag` and `ingredient` arguments are the
stripped filter values, absent when empty. -/
def specSatisfiesFilters (db : Db) (tag : String) (maxPrep : Option Int)
    (ingredient : String) (r : Recipe) : Prop :=
  (tag ≠ "" → specHasTagName db r.recipe_id tag) ∧
  (∀ t, maxPrep = some t → ∀ p, r.prep_time_minutes = some p → p ≤ t) ∧
  (ingredient ≠ "" → specHasIngredientLike db r.recipe_id ingredient)

instance (db : Db) (tag : String) (maxPrep : Option Int) (ingredient : String)
    (r : Recipe) : Decidable (specSatisfiesFilters db tag maxPrep ingredient r) := by
  unfold specSatisfiesFilters; infer_instance

/-- The GROUP BY key every joined row of one recipe carries. -/
def keyOf (db : Db) (r : Recipe) : GroupKey :=
  ⟨r.recipe_id, r.name, r.instructions, r.prep_time_minutes, r.cost_estimate,
   r.created_at, ((imgRows db r.recipe_id).head?).map Prod.fst,
   ((imgRows db r.recipe_id).head?).bind Prod.snd,
   (authorNames db r.author_id).head?⟩

/-! ## Example store used to witness the claims -/

/-- A concrete recipe used in witness statements. -/
def sampleRecipe1 : Recipe := ⟨1, "B Pie", "bake", some 30, none, some 1, "t1"⟩

/-- A concrete store with one author, two recipes, two images on the
first recipe (with crossed minimal path and minimal alt text), two
tags on the first recipe and two ingredient associations. -/
def sampleDb : Db :=
  { users := [⟨1, "Alice"⟩],
    recipes := [sampleRecipe1, ⟨2, "A Soup", "boil", none, none, none, "t2"⟩],
    images := [⟨1, 1, "b.jpg", some "zulu"⟩, ⟨2, 1, "a.jpg", none⟩],
    dietary_tags := [⟨1, "vegan"⟩, ⟨2, "healthy"⟩],
    recipe_tags := [(1, 1), (1, 2)],
    ingredients := [⟨1, "Rice"⟩, ⟨2, "Garlic"⟩],
    recipe_ingredients := [⟨1, 1, "2 cups"⟩, ⟨1, 2, ""⟩],
    reviews := [] }

/-- The listing row of recipe 1 in the example store. -/
def sampleRow1 : ListingRow :=
  ⟨1, "B Pie", "bake", some 30, none, "t1", some "a.jpg", some "zulu",
   ratNineHalves, 0, "vegan,healthy", some "Alice"⟩

/-- The listing row of recipe 2 in the example store. -/
def sampleRowSoup : ListingRow :=
  ⟨2, "A Soup", "boil", none, none, "t2", none, none, ratNineHalves, 0, "", none⟩

/-- The browse row of recipe 1 in the example store under the tag
filter `vegan`: the tag string holds only the filtered tag name. -/
def sampleRowVegan : ListingRow :=
  ⟨1, "B Pie", "bake", some 30, none, "t1", some "a.jpg", some "zulu",
   ratNineHalves, 0, "vegan", some "Alice"⟩

/-- A form resubmitting two ingredient names that already exist. -/
def resubForm : RecipeForm :=
  ⟨"Again", "cook", none, none, none, "", "", "Rice - 2 cups\nGarlic", []⟩

/-- An empty store. -/
def emptyDb : Db := ⟨[], [], [], [], [], [], [], []⟩

/-! ## Lemmas on the string order -/

theorem charListLe_cons (x y : Char) (xs ys : List Char) :
    charListLe (x :: xs) (y :: ys) = true ↔
      x < y ∨ (x = y ∧ charListLe xs ys = true) := by
  simp [charListLe, Bool.or_eq_true, Bool.and_eq_true, decide_eq_true_eq]

theorem charListLe_refl : ∀ l : List Char, charListLe l l = true := by
  intro l
  induction l with
  | nil => rfl
  | cons x xs ih => exact (charListLe_cons x x xs xs).mpr (Or.inr ⟨rfl, ih⟩)

theorem charListLe_total : ∀ a b : List Char,
    charListLe a b = true ∨ charListLe b a = true := by
  intro a
  induction a with
  | nil => intro b; left; rfl
  | cons x xs ih =>
    intro b
    cases b with
    | nil => right; rfl
    | cons y ys =>
      rcases lt_trichotomy x y with h | h | h
      · exact Or.inl ((charListLe_cons x y xs ys).mpr (Or.inl h))
      · subst h
        rcases ih ys with h2 | h2
        · exact Or.inl ((charListLe_cons x x xs ys).mpr (Or.inr ⟨rfl, h2⟩))
        · exact Or.inr ((charListLe_cons x x ys xs).mpr (Or.inr ⟨rfl, h2⟩))
      · exact Or.inr ((charListLe_cons y x ys xs).mpr (Or.inl h))

theorem charListLe_trans : ∀ a b c : List Char,
    charListLe a b = true → charListLe b c = true → charListLe a c = true := by
  intro a
  induction a with
  | nil => intro b c _ _; rfl
  | cons x xs ih =>
    intro b c h1 h2
    cases b with
    | nil => simp [charListLe] at h1
    | cons y ys =>
      cases c with
      | nil => simp [charListLe] at h2
      | cons z zs =>
        rw [charListLe_cons] at h1 h2 ⊢
        rcases h1 with h1 | ⟨rfl, h1⟩
        · rcases h2 with h2 | ⟨rfl, h2⟩
          · exact Or.inl (lt_trans h1 h2)
          · exact Or.inl h1
        · rcases h2 with h2 | ⟨rfl, h2⟩
          · exact Or.inl h2
          · exact Or.inr ⟨rfl, ih ys zs h1 h2⟩

theorem strLe_refl (s : String) : strLe s s = true := charListLe_refl _

theorem strLe_trans {a b c : String} (h1 : strLe a b = true)
    (h2 : strLe b c = true) : strLe a c = true :=
  charListLe_trans _ _ _ h1 h2

theorem strLe_total (a b : String) : strLe a b = true ∨ strLe b a = true :=
  charListLe_total _ _

/-! ## Lemmas on minString -/

theorem minString_eq_none_iff (l : List String) :
    minString l = none ↔ l = [] := by
  cases l with
  | nil => simp [minString]
  | cons s rest =>
    simp only [minString]
    cases h : minString rest <;> simp

theorem minString_spec : ∀ (l : List String) (m : String),
    minString l = some m → m ∈ l ∧ ∀ x ∈ l, strLe m x = true := by
  intro l
  induction l with
  | nil => intro m h; cases h
  | cons s rest ih =>
    intro m h
    cases hrest : minString rest with
    | none =>
      simp only [minString, hrest, Option.some.injEq] at h
      subst h
      have hre : rest = [] := (minString_eq_none_iff rest).mp hrest
      subst hre
      refine ⟨List.mem_cons_self _ _, ?_⟩
      intro x hx
      rcases List.mem_cons.mp hx with rfl | hx
      · exact strLe_refl _
      · cases hx
    | some t =>
      simp only [minString, hrest, Option.some.injEq] at h
      obtain ⟨ht_mem, ht_le⟩ := ih t hrest
      by_cases hc : strLe s t = true
      · rw [if_pos hc] at h
        subst h
        refine ⟨List.mem_cons_self _ _, ?_⟩
        intro x hx
        rcases List.mem_cons.mp hx with rfl | hx
        · exact strLe_refl _
        · exact strLe_trans hc (ht_le x hx)
      · rw [if_neg hc] at h
        rw [← h]
        have hts : strLe t s = true := by
          rcases strLe_total s t with h1 | h1
          · exact absurd h1 hc
          · exact h1
        refine ⟨List.mem_cons_of_mem s ht_mem, ?_⟩
        intro x hx
        rcases List.mem_cons.mp hx with rfl | hx
        · exact hts
        · exact ht_le x hx

/-! ## Lemmas on padNull and flatMap -/

theorem padNull_ne_nil {α : Type} (l : List α) : padNull l ≠ [] := by
  cases l <;> simp [padNull]

theorem mem_padNull_some {α : Type} (b : α) (l : List α) :
    some b ∈ padNull l ↔ b ∈ l := by
  cases l <;> simp [padNull]

theorem padNull_of_len_le_one {α : Type} (l : List α) (h : l.length ≤ 1) :
    padNull l = [l.head?] := by
  cases l with
  | nil => rfl
  | cons a t =>
    cases t with
    | nil => rfl
    | cons b t2 => simp [List.length_cons] at h

theorem flatMap_ne_nil_of {α β : Type} (l : List α) (f : α → List β)
    (hl : l ≠ []) (hf : ∀ a ∈ l, f a ≠ []) : l.flatMap f ≠ [] := by
  cases l with
  | nil => exact absurd rfl hl
  | cons a t =>
    rw [List.flatMap_cons]
    intro h
    exact hf a (List.mem_cons_self a t) (List.append_eq_nil.mp h).1

/-! ## Lemmas on first-occurrence deduplication -/

theorem mem_dedupAux {α : Type} [DecidableEq α] (a : α) :
    ∀ (l seen : List α), a ∈ dedupAux seen l ↔ a ∈ l ∧ a ∉ seen := by
  intro l
  induction l with
  | nil => intro seen; simp [dedupAux]
  | cons x xs ih =>
    intro seen
    by_cases hx : x ∈ seen
    · rw [dedupAux, if_pos hx, ih]
      constructor
      · rintro ⟨h1, h2⟩; exact ⟨List.mem_cons_of_mem x h1, h2⟩
      · rintro ⟨h1, h2⟩
        rcases List.mem_cons.mp h1 with rfl | h1
        · exact absurd hx h2
        · exact ⟨h1, h2⟩
    · rw [dedupAux, if_neg hx]
      constructor
      · intro hmem
        rcases List.mem_cons.mp hmem with rfl | hmem
        · exact ⟨List.mem_cons_self a xs, hx⟩
        · obtain ⟨h1, h2⟩ := (ih (x :: seen)).mp hmem
          exact ⟨List.mem_cons_of_mem x h1,
            fun hs => h2 (List.mem_cons_of_mem x hs)⟩
      · rintro ⟨h1, h2⟩
        by_cases hax : a = x
        · subst hax; exact List.mem_cons_self a _
        · rcases List.mem_cons.mp h1 with rfl | h1
          · exact absurd rfl hax
          · refine List.mem_cons_of_mem x ((ih (x :: seen)).mpr ⟨h1, ?_⟩)
            intro hmem2
            rcases List.mem_cons.mp hmem2 with rfl | hmem2
            · exact hax rfl
            · exact h2 hmem2

theorem dedupAux_congr {α : Type} [DecidableEq α] :
    ∀ (l seen seen' : List α), (∀ x ∈ l, (x ∈ seen ↔ x ∈ seen')) →
      dedupAux seen l = dedupAux seen' l := by
  intro l
  induction l with
  | nil => intro s s' _; rfl
  | cons x xs ih =>
    intro s s' h
    have hx := h x (List.mem_cons_self x xs)
    by_cases hmem : x ∈ s
    · rw [dedupAux, dedupAux, if_pos hmem, if_pos (hx.mp hmem)]
      exact ih s s' (fun y hy => h y (List.mem_cons_of_mem x hy))
    · have hmem' : x ∉ s' := fun hc => hmem (hx.mpr hc)
      rw [dedupAux, dedupAux, if_neg hmem, if_neg hmem']
      congr 1
      refine ih (x :: s) (x :: s') (fun y hy => ?_)
      simp only [List.mem_cons]
      exact or_congr Iff.rfl (h y (List.mem_cons_of_mem x hy))

theorem dedupAux_append {α : Type} [DecidableEq α] :
    ∀ (xs ys seen : List α),
      dedupAux seen (xs ++ ys) = dedupAux seen xs ++ dedupAux (xs ++ seen) ys := by
  intro xs
  induction xs with
  | nil => intro ys seen; simp [dedupAux]
  | cons x xs ih =>
    intro ys seen
    by_cases hx : x ∈ seen
    · rw [List.cons_append, dedupAux, if_pos hx, dedupAux, if_pos hx, ih]
      congr 1
      refine dedupAux_congr ys (xs ++ seen) ((x :: xs) ++ seen) (fun y _ => ?_)
      simp only [List.mem_append, List.cons_append, List.mem_cons]
      constructor
      · intro h; exact Or.inr h
      · rintro (rfl | h)
        · exact Or.inr hx
        · exact h
    · rw [List.cons_append, dedupAux, if_neg hx, dedupAux, if_neg hx, ih,
        List.cons_append, List.cons_append]
      congr 2
      refine dedupAux_congr ys (xs ++ x :: seen) (x :: (xs ++ seen)) (fun y _ => ?_)
      simp only [List.mem_append, List.mem_cons]
      tauto

theorem dedupAux_replicate {α : Type} [DecidableEq α] (k : α) :
    ∀ (n : Nat) (seen : List α),
      dedupAux seen (List.replicate n k) =
        if n = 0 ∨ k ∈ seen then [] else [k] := by
  intro n
  induction n with
  | zero => intro seen; simp [dedupAux, List.replicate]
  | succ m ih =>
    intro seen
    rw [List.replicate_succ]
    by_cases hk : k ∈ seen
    · rw [dedupAux, if_pos hk, ih]
      simp [hk]
    · rw [dedupAux, if_neg hk, ih]
      have hk2 : k ∈ k :: seen := List.mem_cons_self k seen
      simp [hk, hk2]

theorem nodup_dedupAux {α : Type} [DecidableEq α] :
    ∀ (l seen : List α), (dedupAux seen l).Nodup := by
  intro l
  induction l with
  | nil => intro s; simp [dedupAux]
  | cons x xs ih =>
    intro s
    by_cases hx : x ∈ s
    · rw [dedupAux, if_pos hx]; exact ih s
    · rw [dedupAux, if_neg hx]
      refine List.nodup_cons.mpr ⟨?_, ih (x :: s)⟩
      intro hmem
      exact ((mem_dedupAux x xs (x :: s)).mp hmem).2 (List.mem_cons_self x s)

/-! ## Lemmas on the name sort -/

theorem countP_insertByName (p : ListingRow → Bool) (r : ListingRow) :
    ∀ l : List ListingRow,
      (insertByName r l).countP p =
        List.countP p l + if p r = true then 1 else 0 := by
  intro l
  induction l with
  | nil => simp [insertByName, List.countP_cons]
  | cons x xs ih =>
    rw [insertByName]
    by_cases hc : strLe r.name x.name = true
    · rw [if_pos hc]
      simp only [List.countP_cons]
    · rw [if_neg hc]
      simp only [List.countP_cons, ih]
      omega

theorem countP_sortByName (p : ListingRow → Bool) :
    ∀ l : List ListingRow, (sortByName l).countP p = List.countP p l := by
  intro l
  induction l with
  | nil => rfl
  | cons x xs ih =>
    rw [sortByName, countP_insertByName, ih, List.countP_cons]

theorem mem_insertByName (x r : ListingRow) :
    ∀ l : List ListingRow, x ∈ insertByName r l ↔ x = r ∨ x ∈ l := by
  intro l
  induction l with
  | nil => simp [insertByName]
  | cons y ys ih =>
    rw [insertByName]
    by_cases hc : strLe r.name y.name = true
    · rw [if_pos hc]
      simp [List.mem_cons]
    · rw [if_neg hc]
      simp only [List.mem_cons, ih]
      tauto

theorem mem_sortByName (x : ListingRow) :
    ∀ l : List ListingRow, x ∈ sortByName l ↔ x ∈ l := by
  intro l
  induction l with
  | nil => simp [sortByName]
  | cons y ys ih =>
    rw [sortByName, mem_insertByName]
    simp [List.mem_cons, ih]

/-! ## Structure of the per-recipe join blocks -/

theorem not_isEmpty_of_ne_nil {α : Type} {l : List α} (h : l ≠ []) :
    (!l.isEmpty) = true := by
  cases l with
  | nil => exact absurd rfl h
  | cons a t => rfl

theorem imgRows_len (db : Db) (rid : Nat) : (imgRows db rid).length ≤ 1 := by
  unfold imgRows
  cases minString ((recipeImages db rid).map (·.file_path)) <;> simp

theorem length_filter_le_one_of_nodup_map {α κ : Type} [DecidableEq κ]
    (f : α → κ) (k : κ) :
    ∀ l : List α, (l.map f).Nodup →
      (l.filter (fun x => decide (f x = k))).length ≤ 1 := by
  intro l
  induction l with
  | nil => intro _; simp
  | cons x xs ih =>
    intro hnd
    simp only [List.map_cons, List.nodup_cons] at hnd
    obtain ⟨hx, hxs⟩ := hnd
    by_cases hfx : f x = k
    · rw [List.filter_cons_of_pos (by simp [hfx])]
      have hnil : xs.filter (fun y => decide (f y = k)) = [] := by
        rw [List.filter_eq_nil_iff]
        intro y hy
        simp only [decide_eq_true_eq]
        intro hk
        exact hx (by rw [hfx, ← hk]; exact List.mem_map_of_mem f hy)
      simp [hnil]
    · rw [List.filter_cons_of_neg (by simp [hfx])]
      exact ih hxs

theorem authorNames_len (db : Db) (hU : (db.users.map (·.user_id)).Nodup)
    (aid : Option Nat) : (authorNames db aid).length ≤ 1 := by
  cases aid with
  | none => simp [authorNames]
  | some a =>
    simp only [authorNames, List.length_map]
    exact length_filter_le_one_of_nodup_map (·.user_id) a db.users hU

theorem indexBlock_eq (db : Db) (hU : (db.users.map (·.user_id)).Nodup)
    (r : Recipe) :
    indexBlock db r =
      (tagSide db r.recipe_id).map (fun t =>
        ⟨r, ((imgRows db r.recipe_id).head?).map Prod.fst,
         ((imgRows db r.recipe_id).head?).bind Prod.snd,
         (authorNames db r.author_id).head?, t, none⟩) := by
  unfold indexBlock
  rw [padNull_of_len_le_one _ (imgRows_len db r.recipe_id),
      padNull_of_len_le_one _ (authorNames_len db hU r.author_id)]
  simp [List.flatMap_cons]

theorem recipeBlock_eq (db : Db) (hU : (db.users.map (·.user_id)).Nodup)
    (r : Recipe) :
    recipeBlock db r =
      (tagSide db r.recipe_id).flatMap (fun t =>
        (ingSide db r.recipe_id).map (fun i =>
          ⟨r, ((imgRows db r.recipe_id).head?).map Prod.fst,
           ((imgRows db r.recipe_id).head?).bind Prod.snd,
           (authorNames db r.author_id).head?, t, i⟩)) := by
  unfold recipeBlock
  rw [padNull_of_len_le_one _ (imgRows_len db r.recipe_id),
      padNull_of_len_le_one _ (authorNames_len db hU r.author_id)]
  simp [List.flatMap_cons]

theorem mem_indexBlock (db : Db) (hU : (db.users.map (·.user_id)).Nodup)
    (r : Recipe) (j : JoinRow) (hj : j ∈ indexBlock db r) :
    rowKey j = keyOf db r ∧ j.recipe = r := by
  rw [indexBlock_eq db hU r] at hj
  rcases List.mem_map.mp hj with ⟨t, _, rfl⟩
  exact ⟨rfl, rfl⟩

theorem mem_recipeBlock (db : Db) (hU : (db.users.map (·.user_id)).Nodup)
    (r : Recipe) (j : JoinRow) (hj : j ∈ recipeBlock db r) :
    rowKey j = keyOf db r ∧ j.recipe = r := by
  rw [recipeBlock_eq db hU r] at hj
  rcases List.mem_flatMap.mp hj with ⟨t, _, hj2⟩
  rcases List.mem_map.mp hj2 with ⟨i, _, rfl⟩
  exact ⟨rfl, rfl⟩

theorem tagSide_ne_nil (db : Db) (rid : Nat) : tagSide db rid ≠ [] := by
  unfold tagSide
  split
  · simp
  · next h =>
    refine flatMap_ne_nil_of _ _ ?_ (fun a _ => padNull_ne_nil _)
    intro hc
    exact h (by rw [hc]; rfl)

theorem ingSide_ne_nil (db : Db) (rid : Nat) : ingSide db rid ≠ [] := by
  unfold ingSide
  split
  · simp
  · next h =>
    refine flatMap_ne_nil_of _ _ ?_ (fun a _ => padNull_ne_nil _)
    intro hc
    exact h (by rw [hc]; rfl)

theorem indexBlock_ne_nil (db : Db) (r : Recipe) : indexBlock db r ≠ [] := by
  unfold indexBlock
  refine flatMap_ne_nil_of _ _ (padNull_ne_nil _) (fun io _ => ?_)
  refine flatMap_ne_nil_of _ _ (padNull_ne_nil _) (fun uo _ => ?_)
  intro hc
  exact tagSide_ne_nil db r.recipe_id (List.map_eq_nil_iff.mp hc)

theorem recipeBlock_ne_nil (db : Db) (r : Recipe) : recipeBlock db r ≠ [] := by
  unfold recipeBlock
  refine flatMap_ne_nil_of _ _ (padNull_ne_nil _) (fun io _ => ?_)
  refine flatMap_ne_nil_of _ _ (padNull_ne_nil _) (fun uo _ => ?_)
  refine flatMap_ne_nil_of _ _ (tagSide_ne_nil db r.recipe_id) (fun t _ => ?_)
  intro hc
  exact ingSide_ne_nil db r.recipe_id (List.map_eq_nil_iff.mp hc)

/-! ## GROUP BY over a concatenation of constant-key blocks -/

theorem groupedRows_flatMap {α : Type} (f : α → List JoinRow)
    (k : α → GroupKey) :
    ∀ l : List α, (∀ a ∈ l, ∀ j ∈ f a, rowKey j = k a) → (l.map k).Nodup →
      groupedRows (l.flatMap f) =
        (l.filter (fun a => !(f a).isEmpty)).map
          (fun a => mkListingRow (k a) (f a)) := by
  intro l
  induction l with
  | nil => intro _ _; simp [groupedRows, dedupFirst, dedupAux]
  | cons a l ih =>
    intro hkey hnd
    simp only [List.map_cons, List.nodup_cons] at hnd
    obtain ⟨hka, hnd'⟩ := hnd
    have hkey' : ∀ b ∈ l, ∀ j ∈ f b, rowKey j = k b :=
      fun b hb => hkey b (List.mem_cons_of_mem a hb)
    have hkeya : ∀ j ∈ f a, rowKey j = k a := hkey a (List.mem_cons_self a l)
    have htail : ∀ x ∈ (l.flatMap f).map rowKey, x ∈ l.map k := by
      intro x hx
      rcases List.mem_map.mp hx with ⟨j, hj, rfl⟩
      rcases List.mem_flatMap.mp hj with ⟨b, hb, hjb⟩
      rw [hkey' b hb j hjb]
      exact List.mem_map_of_mem k hb
    by_cases hfa : f a = []
    · rw [List.flatMap_cons, hfa, List.nil_append,
        @List.filter_cons_of_neg _ (fun b => !(f b).isEmpty) a l (by simp [hfa])]
      exact ih hkey' hnd'
    · have hrep : (f a).map rowKey = List.replicate (f a).length (k a) := by
        rw [List.eq_replicate_iff]
        refine ⟨by simp, ?_⟩
        intro b hb
        rcases List.mem_map.mp hb with ⟨j, hj, rfl⟩
        exact hkeya j hj
      have hlen : (f a).length ≠ 0 := fun h => hfa (List.length_eq_zero.mp h)
      have hkeys : dedupFirst (((a :: l).flatMap f).map rowKey) =
          k a :: dedupFirst ((l.flatMap f).map rowKey) := by
        rw [List.flatMap_cons, List.map_append, hrep]
        unfold dedupFirst
        rw [dedupAux_append, dedupAux_replicate, if_neg (by simp [hlen])]
        rw [List.singleton_append]
        congr 1
        refine dedupAux_congr _ _ _ (fun x hx => ?_)
        have hx2 : x ∈ l.map k := htail x hx
        have hxne : x ≠ k a := fun h => hka (by rw [← h]; exact hx2)
        simp [List.mem_replicate, hxne]
      have hhead : ((a :: l).flatMap f).filter
          (fun j => decide (rowKey j = k a)) = f a := by
        rw [List.flatMap_cons, List.filter_append]
        have h1 : (f a).filter (fun j => decide (rowKey j = k a)) = f a :=
          List.filter_eq_self.mpr (fun j hj => by simp [hkeya j hj])
        have h2 : (l.flatMap f).filter (fun j => decide (rowKey j = k a)) = [] := by
          rw [List.filter_eq_nil_iff]
          intro j hj
          simp only [decide_eq_true_eq]
          intro h
          exact hka (h ▸ htail (rowKey j) (List.mem_map_of_mem rowKey hj))
        rw [h1, h2, List.append_nil]
      have hsplit : ∀ kk, kk ∈ l.map k →
          ((a :: l).flatMap f).filter (fun j => decide (rowKey j = kk)) =
            (l.flatMap f).filter (fun j => decide (rowKey j = kk)) := by
        intro kk hkk
        rw [List.flatMap_cons, List.filter_append]
        have : (f a).filter (fun j => decide (rowKey j = kk)) = [] := by
          rw [List.filter_eq_nil_iff]
          intro j hj
          simp only [decide_eq_true_eq]
          rw [hkeya j hj]
          exact fun h => hka (by rw [h]; exact hkk)
        rw [this, List.nil_append]
      unfold groupedRows
      rw [hkeys, List.map_cons, hhead,
        @List.filter_cons_of_pos _ (fun b => !(f b).isEmpty) a l
          (not_isEmpty_of_ne_nil hfa), List.map_cons]
      congr 1
      have ih2 := ih hkey' hnd'
      unfold groupedRows at ih2
      rw [← ih2]
      refine List.map_congr_left (fun kk hkk => ?_)
      have hkk2 : kk ∈ (l.flatMap f).map rowKey :=
        ((mem_dedupAux kk _ _).mp hkk).1
      rw [hsplit kk (htail kk hkk2)]

/-! ## Membership in the join sides and survival of the WHERE clause -/

theorem not_isEmpty_iff {α : Type} (l : List α) :
    (!l.isEmpty) = true ↔ l ≠ [] := by
  cases l <;> simp

theorem filter_ne_nil_iff {α : Type} (p : α → Bool) (l : List α) :
    l.filter p ≠ [] ↔ ∃ a ∈ l, p a = true := by
  rw [Ne, List.filter_eq_nil_iff]
  push_neg
  simp

theorem some_mem_tagSide (db : Db) (rid : Nat) (n : String) :
    some n ∈ tagSide db rid ↔ specHasTagName db rid n := by
  unfold tagSide specHasTagName
  split
  · next h =>
    have hnil : rtRows db rid = [] := List.isEmpty_iff.mp (by simpa using h)
    have hall : ∀ p ∈ db.recipe_tags, ¬ p.1 = rid := by
      intro p hp
      have := List.filter_eq_nil_iff.mp hnil p hp
      simpa using this
    simp only [List.mem_singleton]
    constructor
    · intro hc; cases hc
    · rintro ⟨p, hp, hp1, _⟩
      exact absurd hp1 (hall p hp)
  · simp only [List.mem_flatMap, mem_padNull_some]
    constructor
    · rintro ⟨p, hp, hn⟩
      have hp2 := List.mem_filter.mp hp
      rcases List.mem_map.mp hn with ⟨dt, hdt, rfl⟩
      have hdt2 := List.mem_filter.mp hdt
      exact ⟨p, hp2.1, by simpa using hp2.2,
        dt, hdt2.1, by simpa using hdt2.2, rfl⟩
    · rintro ⟨p, hp, hp1, dt, hdt, hdtid, rfl⟩
      refine ⟨p, List.mem_filter.mpr ⟨hp, by simpa using hp1⟩, ?_⟩
      unfold tagNamesOf
      exact List.mem_map_of_mem _ (List.mem_filter.mpr ⟨hdt, by simpa using hdtid⟩)

theorem some_mem_ingSide (db : Db) (rid : Nat) (n : String) :
    some n ∈ ingSide db rid ↔
      ∃ ri ∈ db.recipe_ingredients, ri.recipe_id = rid ∧
        ∃ ing ∈ db.ingredients, ing.ingredient_id = ri.ingredient_id ∧
          ing.name = n := by
  unfold ingSide
  split
  · next h =>
    have hnil : riRows db rid = [] := List.isEmpty_iff.mp (by simpa using h)
    have hall : ∀ p ∈ db.recipe_ingredients, ¬ p.recipe_id = rid := by
      intro p hp
      have := List.filter_eq_nil_iff.mp hnil p hp
      simpa using this
    simp only [List.mem_singleton]
    constructor
    · intro hc; cases hc
    · rintro ⟨p, hp, hp1, _⟩
      exact absurd hp1 (hall p hp)
  · simp only [List.mem_flatMap, mem_padNull_some]
    constructor
    · rintro ⟨p, hp, hn⟩
      have hp2 := List.mem_filter.mp hp
      rcases List.mem_map.mp hn with ⟨ing, hing, rfl⟩
      have hing2 := List.mem_filter.mp hing
      exact ⟨p, hp2.1, by simpa using hp2.2,
        ing, hing2.1, by simpa using hing2.2, rfl⟩
    · rintro ⟨p, hp, hp1, ing, hing, hingid, rfl⟩
      refine ⟨p, List.mem_filter.mpr ⟨hp, by simpa using hp1⟩, ?_⟩
      unfold ingNamesOf
      exact List.mem_map_of_mem _ (List.mem_filter.mpr ⟨hing, by simpa using hingid⟩)

theorem exists_tagOk_iff (db : Db) (rid : Nat) (tag : String) :
    (∃ t ∈ tagSide db rid, tagOkB tag t = true) ↔
      (tag ≠ "" → specHasTagName db rid tag) := by
  by_cases htag : tag = ""
  · subst htag
    simp only [ne_eq, not_true_eq_false, false_implies, iff_true]
    rcases List.exists_mem_of_ne_nil _ (tagSide_ne_nil db rid) with ⟨t, ht⟩
    exact ⟨t, ht, by simp [tagOkB]⟩
  · simp only [tagOkB, htag, decide_False, Bool.false_or, decide_eq_true_eq,
      ne_eq, not_false_eq_true, true_implies]
    constructor
    · rintro ⟨t, ht, rfl⟩
      exact (some_mem_tagSide db rid tag).mp ht
    · intro h
      exact ⟨some tag, (some_mem_tagSide db rid tag).mpr h, rfl⟩

theorem exists_ingOk_iff (db : Db) (rid : Nat) (ing : String) :
    (∃ i ∈ ingSide db rid, ingOkB ing i = true) ↔
      (ing ≠ "" → specHasIngredientLike db rid ing) := by
  by_cases hing : ing = ""
  · subst hing
    simp only [ne_eq, not_true_eq_false, false_implies, iff_true]
    rcases List.exists_mem_of_ne_nil _ (ingSide_ne_nil db rid) with ⟨i, hi⟩
    exact ⟨i, hi, by simp [ingOkB]⟩
  · simp only [ne_eq, hing, not_false_eq_true, true_implies]
    constructor
    · rintro ⟨i, hi, hok⟩
      simp only [ingOkB, hing, decide_False, Bool.false_or] at hok
      cases i with
      | none => cases hok
      | some n =>
        rcases (some_mem_ingSide db rid n).mp hi with ⟨ri, hri, hrid, g, hg, hgid, rfl⟩
        exact ⟨ri, hri, hrid, g, hg, hgid, hok⟩
    · rintro ⟨ri, hri, hrid, g, hg, hgid, hlike⟩
      refine ⟨some g.name, (some_mem_ingSide db rid g.name).mpr
        ⟨ri, hri, hrid, g, hg, hgid, rfl⟩, ?_⟩
      simp [ingOkB, hlike]

theorem prepOkB_iff (maxPrep : Option Int) (r : Recipe) :
    prepOkB maxPrep r = true ↔
      (∀ t, maxPrep = some t → ∀ p, r.prep_time_minutes = some p → p ≤ t) := by
  cases maxPrep with
  | none => simp [prepOkB]
  | some t =>
    cases hp : r.prep_time_minutes with
    | none => simp [prepOkB, hp]
    | some p => simp [prepOkB, hp]

theorem recipeBlock_filter_ne_nil_iff (db : Db)
    (hU : (db.users.map (·.user_id)).Nodup) (r : Recipe) (tag ing : String)
    (mpt : Option Int) :
    (recipeBlock db r).filter (whereCond tag mpt ing) ≠ [] ↔
      specSatisfiesFilters db tag mpt ing r := by
  rw [filter_ne_nil_iff, recipeBlock_eq db hU r]
  unfold specSatisfiesFilters
  constructor
  · rintro ⟨j, hj, hcond⟩
    rcases List.mem_flatMap.mp hj with ⟨t, ht, hj2⟩
    rcases List.mem_map.mp hj2 with ⟨i, hi, rfl⟩
    simp only [whereCond, Bool.and_eq_true] at hcond
    obtain ⟨⟨htag, hprep⟩, hingr⟩ := hcond
    exact ⟨(exists_tagOk_iff db r.recipe_id tag).mp ⟨t, ht, htag⟩,
      (prepOkB_iff mpt r).mp hprep,
      (exists_ingOk_iff db r.recipe_id ing).mp ⟨i, hi, hingr⟩⟩
  · rintro ⟨htag, hprep, hingr⟩
    rcases (exists_tagOk_iff db r.recipe_id tag).mpr htag with ⟨t, ht, htok⟩
    rcases (exists_ingOk_iff db r.recipe_id ing).mpr hingr with ⟨i, hi, hiok⟩
    refine ⟨⟨r, ((imgRows db r.recipe_id).head?).map Prod.fst,
      ((imgRows db r.recipe_id).head?).bind Prod.snd,
      (authorNames db r.author_id).head?, t, i⟩, ?_, ?_⟩
    · exact List.mem_flatMap.mpr ⟨t, ht, List.mem_map_of_mem _ hi⟩
    · simp only [whereCond, Bool.and_eq_true]
      exact ⟨⟨htok, (prepOkB_iff mpt r).mpr hprep⟩, hiok⟩

/-! ## Master shape of the two listing queries -/

theorem nodup_map_keyOf (db : Db) (hR : (db.recipes.map (·.recipe_id)).Nodup) :
    (db.recipes.map (keyOf db)).Nodup := by
  refine List.Nodup.of_map GroupKey.recipe_id ?_
  have heq : (db.recipes.map (keyOf db)).map GroupKey.recipe_id =
      db.recipes.map (·.recipe_id) := by
    rw [List.map_map]; rfl
  rw [heq]
  exact hR

theorem recipes_eq_master (db : Db) (tag : String) (mpt : Option Int)
    (ing : String) (hR : (db.recipes.map (·.recipe_id)).Nodup)
    (hU : (db.users.map (·.user_id)).Nodup) :
    recipes db tag mpt ing =
      sortByName ((db.recipes.filter (fun r =>
          decide (specSatisfiesFilters db (pyStrip tag) mpt (pyStrip ing) r))).map
        (fun r => mkListingRow (keyOf db r)
          ((recipeBlock db r).filter (whereCond (pyStrip tag) mpt (pyStrip ing))))) := by
  unfold recipes recipesFrom
  rw [List.filter_flatMap]
  rw [groupedRows_flatMap
    (fun r => (recipeBlock db r).filter (whereCond (pyStrip tag) mpt (pyStrip ing)))
    (keyOf db) db.recipes
    (fun r hr j hj => (mem_recipeBlock db hU r j (List.mem_filter.mp hj).1).1)
    (nodup_map_keyOf db hR)]
  congr 1
  congr 1
  refine List.filter_congr (fun r _ => ?_)
  by_cases hs : specSatisfiesFilters db (pyStrip tag) mpt (pyStrip ing) r
  · rw [decide_eq_true hs]
    exact (not_isEmpty_iff _).mpr
      ((recipeBlock_filter_ne_nil_iff db hU r _ _ mpt).mpr hs)
  · rw [decide_eq_false hs]
    by_contra hc
    exact hs ((recipeBlock_filter_ne_nil_iff db hU r _ _ mpt).mp
      ((not_isEmpty_iff _).mp (by revert hc; cases (recipeBlock db r).filter (whereCond (pyStrip tag) mpt (pyStrip ing)) <;> simp)))

theorem index_eq_master (db : Db)
    (hR : (db.recipes.map (·.recipe_id)).Nodup)
    (hU : (db.users.map (·.user_id)).Nodup) :
    index db = sortByName (db.recipes.map
      (fun r => mkListingRow (keyOf db r) (indexBlock db r))) := by
  unfold index indexFrom
  rw [groupedRows_flatMap (indexBlock db) (keyOf db) db.recipes
    (fun r hr j hj => (mem_indexBlock db hU r j hj).1)
    (nodup_map_keyOf db hR)]
  rw [List.filter_eq_self.mpr
    (fun r _ => not_isEmpty_of_ne_nil (indexBlock_ne_nil db r))]

/-- Counting elements keyed like a fixed element of a list whose key
column is duplicate-free. -/
theorem countP_key_unique {α κ : Type} [DecidableEq κ] (f : α → κ)
    (q : α → Bool) :
    ∀ l : List α, (l.map f).Nodup → ∀ r ∈ l,
      l.countP (fun x => decide (f x = f r) && q x) =
        if q r = true then 1 else 0 := by
  intro l
  induction l with
  | nil => intro _ r hr; cases hr
  | cons x xs ih =>
    intro hnd r hr
    simp only [List.map_cons, List.nodup_cons] at hnd
    obtain ⟨hx, hxs⟩ := hnd
    rw [List.countP_cons]
    rcases List.mem_cons.mp hr with rfl | hr2
    · have hzero : xs.countP (fun y => decide (f y = f r) && q y) = 0 := by
        rw [List.countP_eq_zero]
        intro y hy
        simp only [Bool.and_eq_true, decide_eq_true_eq, not_and]
        intro hfy
        exact absurd (by rw [← hfy]; exact List.mem_map_of_mem f hy) hx
      rw [hzero]
      simp
    · have hne : f x ≠ f r :=
        fun h => hx (by rw [h]; exact List.mem_map_of_mem f hr2)
      rw [ih hxs r hr2]
      simp [hne]

/-! ## Row count and membership per recipe -/

theorem countP_recipes_id (db : Db) (tag ing : String) (mpt : Option Int)
    (hR : (db.recipes.map (·.recipe_id)).Nodup)
    (hU : (db.users.map (·.user_id)).Nodup) (r : Recipe) (hr : r ∈ db.recipes) :
    (recipes db tag mpt ing).countP
        (fun row => decide (row.recipe_id = r.recipe_id)) =
      if specSatisfiesFilters db (pyStrip tag) mpt (pyStrip ing) r then 1 else 0 := by
  rw [recipes_eq_master db tag mpt ing hR hU, countP_sortByName, List.countP_map]
  simp only [Function.comp_def, mkListingRow, keyOf]
  rw [List.countP_filter]
  rw [countP_key_unique (·.recipe_id)
    (fun r2 => decide (specSatisfiesFilters db (pyStrip tag) mpt (pyStrip ing) r2))
    db.recipes hR r hr]
  by_cases hs : specSatisfiesFilters db (pyStrip tag) mpt (pyStrip ing) r
  · rw [if_pos hs, if_pos (by simp [hs])]
  · rw [if_neg hs, if_neg (by simp [hs])]

theorem countP_index_id (db : Db)
    (hR : (db.recipes.map (·.recipe_id)).Nodup)
    (hU : (db.users.map (·.user_id)).Nodup) (r : Recipe) (hr : r ∈ db.recipes) :
    (index db).countP (fun row => decide (row.recipe_id = r.recipe_id)) = 1 := by
  rw [index_eq_master db hR hU, countP_sortByName, List.countP_map]
  simp only [Function.comp_def, mkListingRow, keyOf]
  simpa using countP_key_unique (·.recipe_id) (fun _ => true) db.recipes hR r hr

theorem mem_recipes_id_iff (db : Db) (tag ing : String) (mpt : Option Int)
    (hR : (db.recipes.map (·.recipe_id)).Nodup)
    (hU : (db.users.map (·.user_id)).Nodup) (r : Recipe) (hr : r ∈ db.recipes) :
    (∃ row ∈ recipes db tag mpt ing, row.recipe_id = r.recipe_id) ↔
      specSatisfiesFilters db (pyStrip tag) mpt (pyStrip ing) r := by
  rw [recipes_eq_master db tag mpt ing hR hU]
  constructor
  · rintro ⟨row, hrow, hid⟩
    rw [mem_sortByName] at hrow
    rcases List.mem_map.mp hrow with ⟨r2, hr2, rfl⟩
    have hr2f := List.mem_filter.mp hr2
    have hid2 : r2.recipe_id = r.recipe_id := hid
    have hrr : r2 = r := List.inj_on_of_nodup_map hR hr2f.1 hr hid2
    rw [← hrr]
    exact of_decide_eq_true hr2f.2
  · intro hs
    refine ⟨mkListingRow (keyOf db r)
      ((recipeBlock db r).filter (whereCond (pyStrip tag) mpt (pyStrip ing))),
      ?_, rfl⟩
    rw [mem_sortByName]
    exact List.mem_map_of_mem _ (List.mem_filter.mpr ⟨hr, decide_eq_true hs⟩)


/-! ## Claim C1 -/

/-- C1: for every store whose primary keys are duplicate-free and
every combination of supplied filters, the listing operations return
exactly one output row per recipe satisfying all supplied filters
(`index` always one row per recipe), however many images, tags or
matching ingredient associations the recipe has; an absent filter
imposes no constraint (the spec-side satisfier is vacuous for it). -/
theorem C1_one_row_per_matching_recipe (db : Db) (tag ing : String)
    (mpt : Option Int) (hR : (db.recipes.map (·.recipe_id)).Nodup)
    (hU : (db.users.map (·.user_id)).Nodup) (r : Recipe) (hr : r ∈ db.recipes) :
    ((recipes db tag mpt ing).countP
        (fun row => decide (row.recipe_id = r.recipe_id)) =
      if specSatisfiesFilters db (pyStrip tag) mpt (pyStrip ing) r then 1 else 0) ∧
    (index db).countP (fun row => decide (row.recipe_id = r.recipe_id)) = 1 :=
  ⟨countP_recipes_id db tag ing mpt hR hU r hr, countP_index_id db hR hU r hr⟩

/-- C1 witness at the example store. -/
theorem C1_one_row_per_matching_recipe_witness :
    ((recipes sampleDb "vegan" none "").countP
        (fun row => decide (row.recipe_id = sampleRecipe1.recipe_id)) =
      if specSatisfiesFilters sampleDb (pyStrip "vegan") none (pyStrip "")
          sampleRecipe1 then 1 else 0) ∧
    (index sampleDb).countP
      (fun row => decide (row.recipe_id = sampleRecipe1.recipe_id)) = 1 :=
  C1_one_row_per_matching_recipe sampleDb "vegan" "" none (by decide) (by decide)
    sampleRecipe1 (by decide)

/-! ## Claim C4 -/

/-- C4: with a supplied max-prep-time filter T, a recipe appears in
the browse view exactly when it would appear without the prep-time
filter and its prep time, when set, is at most T; a NULL prep time
never excludes a recipe through this filter. -/
theorem C4_prep_time_filter (db : Db) (tag ing : String) (T : Int)
    (hR : (db.recipes.map (·.recipe_id)).Nodup)
    (hU : (db.users.map (·.user_id)).Nodup) (r : Recipe) (hr : r ∈ db.recipes) :
    (∃ row ∈ recipes db tag (some T) ing, row.recipe_id = r.recipe_id) ↔
      ((∃ row ∈ recipes db tag none ing, row.recipe_id = r.recipe_id) ∧
        ∀ p, r.prep_time_minutes = some p → p ≤ T) := by
  rw [mem_recipes_id_iff db tag ing (some T) hR hU r hr,
      mem_recipes_id_iff db tag ing none hR hU r hr]
  unfold specSatisfiesFilters
  constructor
  · rintro ⟨h1, h2, h3⟩
    refine ⟨⟨h1, ?_, h3⟩, h2 T rfl⟩
    intro t ht
    cases ht
  · rintro ⟨⟨h1, _, h3⟩, h2⟩
    refine ⟨h1, ?_, h3⟩
    intro t ht
    injection ht with ht
    subst ht
    exact h2

/-- C4 witness at the example store. -/
theorem C4_prep_time_filter_witness :
    (∃ row ∈ recipes sampleDb "" (some 40) "",
        row.recipe_id = sampleRecipe1.recipe_id) ↔
      ((∃ row ∈ recipes sampleDb "" none "",
          row.recipe_id = sampleRecipe1.recipe_id) ∧
        ∀ p, sampleRecipe1.prep_time_minutes = some p → p ≤ 40) :=
  C4_prep_time_filter sampleDb "" "" 40 (by decide) (by decide) sampleRecipe1
    (by decide)

/-! ## Claim C10 -/

theorem ratNineHalves_eq : ratNineHalves = 4.5 := by
  rw [ratNineHalves, Rat.mk'_eq_divInt, Rat.divInt_eq_div]
  norm_num

/-- C10: every row of either listing view carries the selected
constants avg_rating = 4.5 and review_count = 0, and the listing
results do not depend on the reviews table at all. -/
theorem C10_constant_rating_fields (db : Db) (tag ing : String)
    (mpt : Option Int) (rvs : List Review) (row : ListingRow) :
    (row ∈ index db → row.avg_rating = 4.5 ∧ row.review_count = 0) ∧
    (row ∈ recipes db tag mpt ing →
      row.avg_rating = 4.5 ∧ row.review_count = 0) ∧
    index { db with reviews := rvs } = index db ∧
    recipes { db with reviews := rvs } tag mpt ing = recipes db tag mpt ing := by
  refine ⟨?_, ?_, rfl, rfl⟩
  · intro hrow
    unfold index at hrow
    rw [mem_sortByName] at hrow
    unfold groupedRows at hrow
    rcases List.mem_map.mp hrow with ⟨k, _, rfl⟩
    exact ⟨ratNineHalves_eq, rfl⟩
  · intro hrow
    unfold recipes at hrow
    rw [mem_sortByName] at hrow
    unfold groupedRows at hrow
    rcases List.mem_map.mp hrow with ⟨k, _, rfl⟩
    exact ⟨ratNineHalves_eq, rfl⟩

/-- C10 witness at the example store: the first listing row. -/
theorem C10_constant_rating_fields_witness :
    ∃ row ∈ index sampleDb, row.avg_rating = 4.5 ∧ row.review_count = 0 := by
  have hne : index sampleDb ≠ [] := by decide
  rcases List.exists_mem_of_ne_nil _ hne with ⟨row, hrow⟩
  exact ⟨row, hrow, (C10_constant_rating_fields sampleDb "" "" none [] row).1 hrow⟩

/-! ## Shape of an output row -/

theorem row_shape (db : Db) (tag ing : String) (mpt : Option Int)
    (hR : (db.recipes.map (·.recipe_id)).Nodup)
    (hU : (db.users.map (·.user_id)).Nodup) (row : ListingRow)
    (hrow : row ∈ index db ∨ row ∈ recipes db tag mpt ing) :
    ∃ r ∈ db.recipes, row.recipe_id = r.recipe_id ∧
      row.image_url = ((imgRows db r.recipe_id).head?).map Prod.fst ∧
      row.image_alt = ((imgRows db r.recipe_id).head?).bind Prod.snd := by
  rcases hrow with hrow | hrow
  · rw [index_eq_master db hR hU, mem_sortByName] at hrow
    rcases List.mem_map.mp hrow with ⟨r, hr, rfl⟩
    exact ⟨r, hr, rfl, rfl, rfl⟩
  · rw [recipes_eq_master db tag mpt ing hR hU, mem_sortByName] at hrow
    rcases List.mem_map.mp hrow with ⟨r, hr, rfl⟩
    exact ⟨r, (List.mem_filter.mp hr).1, rfl, rfl, rfl⟩

theorem imgRows_eq_nil_iff (db : Db) (rid : Nat) :
    imgRows db rid = [] ↔ recipeImages db rid = [] := by
  unfold imgRows
  cases h : minString ((recipeImages db rid).map (·.file_path)) with
  | none =>
    simp only [true_iff]
    exact List.map_eq_nil_iff.mp ((minString_eq_none_iff _).mp h)
  | some m =>
    constructor
    · intro hc; cases hc
    · intro hc
      rw [hc] at h
      simp [minString] at h

theorem imgRows_of_ne_nil (db : Db) (rid : Nat)
    (h : recipeImages db rid ≠ []) :
    ∃ m, minString ((recipeImages db rid).map (·.file_path)) = some m ∧
      imgRows db rid =
        [(m, minOptString ((recipeImages db rid).map (·.alt_text)))] := by
  cases hm : minString ((recipeImages db rid).map (·.file_path)) with
  | none =>
    exact absurd (List.map_eq_nil_iff.mp ((minString_eq_none_iff _).mp hm)) h
  | some m =>
    refine ⟨m, rfl, ?_⟩
    unfold imgRows
    rw [hm]

/-! ## Claim C2 -/

/-- C2 counterexample: in the example store the only images of recipe
1 are `b.jpg` with alt text `zulu` and `a.jpg` with NULL alt text.
The listing row for recipe 1 carries image path `a.jpg` (the minimal
path) together with alt text `zulu` — but the image whose path is
`a.jpg` has NULL alt text, so the row does not carry the alt text of
the image it names. -/
theorem C2_counterexample :
    ((index sampleDb).map
        (fun row => (row.recipe_id, row.image_url, row.image_alt)) =
      [(2, none, none), (1, some "a.jpg", some "zulu")]) ∧
    ((sampleDb.images.filter (fun i => decide (i.file_path = "a.jpg"))).map
      (·.alt_text) = [none]) ∧
    some "zulu" ≠ (none : Option String) := by decide

/-- C2 as amended: for every recipe row of either listing view, with
zero images both image fields are NULL; otherwise the image path is
the minimal file path among the images of the recipe, and the alt
text is, independently, the minimal non-NULL alt text among those
images (NULL when every alt text is NULL) — not necessarily the alt
text of the image whose path is carried.  Both choices are
deterministic functions of the store. -/
theorem C2_canonical_image (db : Db) (tag ing : String) (mpt : Option Int)
    (hR : (db.recipes.map (·.recipe_id)).Nodup)
    (hU : (db.users.map (·.user_id)).Nodup) (row : ListingRow)
    (hrow : row ∈ index db ∨ row ∈ recipes db tag mpt ing) :
    (recipeImages db row.recipe_id = [] →
      row.image_url = none ∧ row.image_alt = none) ∧
    (recipeImages db row.recipe_id ≠ [] →
      (∃ img ∈ recipeImages db row.recipe_id,
        row.image_url = some img.file_path ∧
        ∀ img2 ∈ recipeImages db row.recipe_id,
          strLe img.file_path img2.file_path = true) ∧
      (row.image_alt = none ↔
        ∀ img ∈ recipeImages db row.recipe_id, img.alt_text = none) ∧
      (∀ a, row.image_alt = some a →
        (∃ img ∈ recipeImages db row.recipe_id, img.alt_text = some a) ∧
        ∀ img2 b, img2 ∈ recipeImages db row.recipe_id →
          img2.alt_text = some b → strLe a b = true)) := by
  obtain ⟨r, hr, hid, hurl, halt⟩ := row_shape db tag ing mpt hR hU row hrow
  rw [hid] at *
  constructor
  · intro hnil
    rw [(imgRows_eq_nil_iff db r.recipe_id).mpr hnil] at hurl halt
    exact ⟨hurl, halt⟩
  · intro hne
    obtain ⟨m, hm, hrows⟩ := imgRows_of_ne_nil db r.recipe_id hne
    rw [hrows] at hurl halt
    replace hurl : row.image_url = some m := hurl
    replace halt : row.image_alt =
      minOptString ((recipeImages db r.recipe_id).map (·.alt_text)) := halt
    obtain ⟨hmem, hle⟩ := minString_spec _ m hm
    rcases List.mem_map.mp hmem with ⟨img, himg, himgp⟩
    refine ⟨⟨img, himg, by rw [hurl, himgp], ?_⟩, ?_, ?_⟩
    · intro img2 h2
      rw [himgp]
      exact hle _ (List.mem_map_of_mem _ h2)
    · rw [halt]
      unfold minOptString
      rw [minString_eq_none_iff, List.filterMap_eq_nil_iff]
      constructor
      · intro hall img2 h2
        have := hall img2.alt_text (List.mem_map_of_mem _ h2)
        simpa using this
      · intro hall o ho
        rcases List.mem_map.mp ho with ⟨img2, h2, rfl⟩
        simpa using hall img2 h2
    · intro a ha
      rw [halt] at ha
      unfold minOptString at ha
      obtain ⟨hamem, hale⟩ := minString_spec _ a ha
      constructor
      · rcases List.mem_filterMap.mp hamem with ⟨o, ho, hoa⟩
        rcases List.mem_map.mp ho with ⟨img2, h2, rfl⟩
        exact ⟨img2, h2, by simpa using hoa⟩
      · intro img2 b h2 hb
        refine hale b (List.mem_filterMap.mpr ⟨some b, ?_, rfl⟩)
        rw [← hb]
        exact List.mem_map_of_mem _ h2

/-- Evaluation of the unfiltered view on the example store. -/
theorem index_sampleDb_eval : index sampleDb = [sampleRowSoup, sampleRow1] := by
  decide

theorem sampleRow1_mem_index : sampleRow1 ∈ index sampleDb := by
  rw [index_sampleDb_eval]
  exact List.mem_cons_of_mem _ (List.mem_cons_self _ _)

/-- C2 witness at the example store: the minimal-path conjunct of the
amended claim for the row of recipe 1. -/
theorem C2_canonical_image_witness :
    ∃ img ∈ recipeImages sampleDb sampleRow1.recipe_id,
      sampleRow1.image_url = some img.file_path ∧
      ∀ img2 ∈ recipeImages sampleDb sampleRow1.recipe_id,
        strLe img.file_path img2.file_path = true :=
  ((C2_canonical_image sampleDb "" "" none (by decide) (by decide) sampleRow1
    (Or.inl sampleRow1_mem_index)).2 (by decide)).1

/-! ## Claim C3 -/

theorem mem_groupTags_indexBlock (db : Db)
    (hU : (db.users.map (·.user_id)).Nodup) (r : Recipe) (n : String) :
    n ∈ groupTags (indexBlock db r) ↔ specHasTagName db r.recipe_id n := by
  unfold groupTags dedupFirst
  rw [mem_dedupAux]
  simp only [List.not_mem_nil, not_false_iff, and_true]
  rw [List.mem_filterMap, indexBlock_eq db hU r]
  constructor
  · rintro ⟨j, hj, hjn⟩
    rcases List.mem_map.mp hj with ⟨t, ht, rfl⟩
    have htn : t = some n := hjn
    rw [htn] at ht
    exact (some_mem_tagSide db r.recipe_id n).mp ht
  · intro h
    exact ⟨_, List.mem_map_of_mem _
      ((some_mem_tagSide db r.recipe_id n).mpr h), rfl⟩

theorem mem_groupTags_recipeBlock (db : Db)
    (hU : (db.users.map (·.user_id)).Nodup) (r : Recipe) (mpt : Option Int)
    (ing : String) (n : String) (hprep : prepOkB mpt r = true)
    (hing : ∃ i ∈ ingSide db r.recipe_id, ingOkB ing i = true) :
    n ∈ groupTags ((recipeBlock db r).filter (whereCond "" mpt ing)) ↔
      specHasTagName db r.recipe_id n := by
  unfold groupTags dedupFirst
  rw [mem_dedupAux]
  simp only [List.not_mem_nil, not_false_iff, and_true]
  rw [List.mem_filterMap]
  constructor
  · rintro ⟨j, hj, hjn⟩
    have hj2 := (List.mem_filter.mp hj).1
    rw [recipeBlock_eq db hU r] at hj2
    rcases List.mem_flatMap.mp hj2 with ⟨t, ht, hj3⟩
    rcases List.mem_map.mp hj3 with ⟨i, hi, rfl⟩
    have htn : t = some n := hjn
    rw [htn] at ht
    exact (some_mem_tagSide db r.recipe_id n).mp ht
  · intro h
    rcases hing with ⟨i, hi, hiok⟩
    refine ⟨⟨r, ((imgRows db r.recipe_id).head?).map Prod.fst,
      ((imgRows db r.recipe_id).head?).bind Prod.snd,
      (authorNames db r.author_id).head?, some n, i⟩, ?_, rfl⟩
    refine List.mem_filter.mpr ⟨?_, ?_⟩
    · rw [recipeBlock_eq db hU r]
      exact List.mem_flatMap.mpr
        ⟨some n, (some_mem_tagSide db r.recipe_id n).mpr h,
          List.mem_map_of_mem _ hi⟩
    · simp only [whereCond, Bool.and_eq_true]
      exact ⟨⟨by simp [tagOkB], hprep⟩, hiok⟩

theorem filterMap_all_some {α β : Type} (f : α → Option β) (b : β) :
    ∀ l : List α, (∀ a ∈ l, f a = some b) →
      l.filterMap f = List.replicate l.length b := by
  intro l
  induction l with
  | nil => intro _; rfl
  | cons x xs ih =>
    intro h
    rw [List.length_cons, List.replicate_succ,
      List.filterMap_cons_some (h x (List.mem_cons_self x xs)),
      ih (fun a ha => h a (List.mem_cons_of_mem x ha))]

/-- Evaluation of the browse view on the example store under the tag
filter `vegan`. -/
theorem recipes_vegan_sampleDb_eval :
    recipes sampleDb "vegan" none "" = [sampleRowVegan] := by
  decide

theorem sampleRowVegan_mem : sampleRowVegan ∈ recipes sampleDb "vegan" none "" := by
  rw [recipes_vegan_sampleDb_eval]
  exact List.mem_cons_self _ _

/-- C3 counterexample: in the example store recipe 1 carries the two
distinct tags `vegan` and `healthy`, yet under the tag filter `vegan`
its browse row has the tag string `vegan` — the entry `healthy` is
omitted, because the WHERE clause discards the joined rows of the
other tags before the aggregation. -/
theorem C3_counterexample :
    ((recipes sampleDb "vegan" none "").map
        (fun row => (row.recipe_id,
          (splitOnChar ',' row.tags.toList).map String.mk)) =
      [(1, ["vegan"])]) ∧
    specHasTagName sampleDb 1 "healthy" ∧
    "healthy" ∉ ["vegan"] := by decide

/-- C3 as amended: in the unfiltered view, and in the filtered view
whenever no tag filter is supplied (the stripped tag argument is
empty), the tag string of every output row is the comma-joined,
duplicate-free list of exactly the tag names of its recipe (empty
when the recipe has none), regardless of the number of its images or
ingredient associations.  When a tag filter is supplied, the tag
string of every output row is exactly the filtered tag name, because
the WHERE clause discards the joined rows of every other tag before
the aggregation. -/
theorem C3_tags_deduplicated (db : Db) (tag ing : String) (mpt : Option Int)
    (hR : (db.recipes.map (·.recipe_id)).Nodup)
    (hU : (db.users.map (·.user_id)).Nodup) (row : ListingRow) :
    ((row ∈ index db ∨
        (pyStrip tag = "" ∧ row ∈ recipes db tag mpt ing)) →
      ∃ L, row.tags = joinWithComma L ∧ L.Nodup ∧
        (∀ n, n ∈ L ↔ specHasTagName db row.recipe_id n) ∧
        ((∀ n, ¬ specHasTagName db row.recipe_id n) → row.tags = "")) ∧
    (pyStrip tag ≠ "" → row ∈ recipes db tag mpt ing →
      row.tags = pyStrip tag) := by
  constructor
  · intro hrow
    have main : ∃ L, row.tags = joinWithComma L ∧ L.Nodup ∧
        (∀ n, n ∈ L ↔ specHasTagName db row.recipe_id n) := by
      rcases hrow with hrow | ⟨htag, hrow⟩
      · rw [index_eq_master db hR hU, mem_sortByName] at hrow
        rcases List.mem_map.mp hrow with ⟨r, hr, rfl⟩
        exact ⟨groupTags (indexBlock db r), rfl, nodup_dedupAux _ _,
          fun n => mem_groupTags_indexBlock db hU r n⟩
      · rw [recipes_eq_master db tag mpt ing hR hU, mem_sortByName] at hrow
        rcases List.mem_map.mp hrow with ⟨r, hr, rfl⟩
        have hspec := of_decide_eq_true (List.mem_filter.mp hr).2
        rw [htag] at hspec ⊢
        refine ⟨groupTags ((recipeBlock db r).filter
          (whereCond "" mpt (pyStrip ing))), rfl, nodup_dedupAux _ _, ?_⟩
        intro n
        exact mem_groupTags_recipeBlock db hU r mpt (pyStrip ing) n
          ((prepOkB_iff mpt r).mpr hspec.2.1)
          ((exists_ingOk_iff db r.recipe_id (pyStrip ing)).mpr hspec.2.2)
    obtain ⟨L, hL, hnd, hmemL⟩ := main
    refine ⟨L, hL, hnd, hmemL, ?_⟩
    intro hnone
    have hLnil : L = [] := by
      cases hLc : L with
      | nil => rfl
      | cons a t =>
        exact absurd ((hmemL a).mp (hLc ▸ List.mem_cons_self a t)) (hnone a)
    rw [hL, hLnil]
    rfl
  · intro htag hrow
    rw [recipes_eq_master db tag mpt ing hR hU, mem_sortByName] at hrow
    rcases List.mem_map.mp hrow with ⟨r, hr, rfl⟩
    have hspec := of_decide_eq_true (List.mem_filter.mp hr).2
    have hgrp_ne : (recipeBlock db r).filter
        (whereCond (pyStrip tag) mpt (pyStrip ing)) ≠ [] :=
      (recipeBlock_filter_ne_nil_iff db hU r _ _ mpt).mpr hspec
    have hall : ∀ j ∈ (recipeBlock db r).filter
        (whereCond (pyStrip tag) mpt (pyStrip ing)),
        j.tag_name = some (pyStrip tag) := by
      intro j hj
      have hcond := (List.mem_filter.mp hj).2
      simp only [whereCond, Bool.and_eq_true] at hcond
      obtain ⟨⟨ht, _⟩, _⟩ := hcond
      simp only [tagOkB, Bool.or_eq_true, decide_eq_true_eq] at ht
      rcases ht with ht | ht
      · exact absurd ht htag
      · exact ht
    show joinWithComma (groupTags ((recipeBlock db r).filter
      (whereCond (pyStrip tag) mpt (pyStrip ing)))) = pyStrip tag
    unfold groupTags
    rw [filterMap_all_some _ _ _ hall]
    have hn : ((recipeBlock db r).filter
        (whereCond (pyStrip tag) mpt (pyStrip ing))).length ≠ 0 :=
      fun h => hgrp_ne (List.length_eq_zero.mp h)
    unfold dedupFirst
    rw [dedupAux_replicate, if_neg (by simp [hn])]
    rfl

/-- C3 witness at the example store: the row of recipe 1 in the
unfiltered view, and its browse row under the tag filter `vegan`. -/
theorem C3_tags_deduplicated_witness :
    (∃ L, sampleRow1.tags = joinWithComma L ∧ L.Nodup ∧
      (∀ n, n ∈ L ↔ specHasTagName sampleDb sampleRow1.recipe_id n) ∧
      ((∀ n, ¬ specHasTagName sampleDb sampleRow1.recipe_id n) →
        sampleRow1.tags = "")) ∧
    sampleRowVegan.tags = pyStrip "vegan" :=
  ⟨(C3_tags_deduplicated sampleDb "" "" none (by decide) (by decide)
      sampleRow1).1 (Or.inl sampleRow1_mem_index),
   (C3_tags_deduplicated sampleDb "vegan" "" none (by decide) (by decide)
      sampleRowVegan).2 (by decide) sampleRowVegan_mem⟩

/-! ## Claim C6 -/

/-- C6: a create-recipe submission whose stripped name or stripped
instructions are empty performs no insert into any table (the store
is returned unchanged) and re-renders the creation form with an error
notice; in particular all inserts of the handler sit after this
validation. -/
theorem C6_validation_failure_writes_nothing (db : Db) (f : RecipeForm)
    (h : pyStrip f.name = "" ∨ pyStrip f.instructions = "") :
    add_recipe db f = (db, AddRecipeResult.formError) := by
  unfold add_recipe
  rcases h with h | h <;> simp [h]

/-- C6 witness: a submission with whitespace-only name. -/
theorem C6_validation_failure_writes_nothing_witness :
    add_recipe sampleDb ⟨"  ", "cook it", none, none, none, "", "", "", []⟩ =
      (sampleDb, AddRecipeResult.formError) :=
  C6_validation_failure_writes_nothing sampleDb
    ⟨"  ", "cook it", none, none, none, "", "", "", []⟩ (Or.inl (by decide))

/-! ## Claim C7 -/

/-- C7 counterexample: a review submission carrying reviewer id 0 and
the valid rating 3.  The reviewer id is present (the field parsed to
an integer), the rating lies in 1..5, yet the handler inserts nothing
— its truthiness test treats the id 0 as missing — so the claimed
equivalence fails at this input. -/
theorem C7_counterexample :
    ¬ (((add_review sampleDb 1 ⟨some 3, "", some 0⟩).1.reviews.length =
          sampleDb.reviews.length + 1) ↔
        ((some 0 : Option Nat).isSome = true ∧ (1 : Int) ≤ 3 ∧ (3 : Int) ≤ 5)) := by
  decide

/-- C7 as amended: the review handler inserts exactly one review row
if and only if the rating is present with a value in 1..5 and the
reviewer id is present and non-zero (the handler applies truthiness,
so the integer 0 is rejected as missing); on success it redirects to
the detail view with a success notice, and on any validation failure
it writes nothing and redirects to the detail view with an error
notice. -/
theorem C7_review_validation (db : Db) (rid : Nat) (f : ReviewForm) :
    ((∃ rv, f.rating = some rv ∧ 1 ≤ rv ∧ rv ≤ 5) ∧
        (∃ uv, f.user_id = some uv ∧ uv ≠ 0) →
      ∃ rv uv, f.rating = some rv ∧ f.user_id = some uv ∧
        add_review db rid f =
          ({ db with reviews := db.reviews ++
              [⟨nextReviewId db, rid, some uv, rv, pyStrip f.comment, ""⟩] },
           AddReviewResult.successRedirect rid)) ∧
    (¬ ((∃ rv, f.rating = some rv ∧ 1 ≤ rv ∧ rv ≤ 5) ∧
        (∃ uv, f.user_id = some uv ∧ uv ≠ 0)) →
      add_review db rid f = (db, AddReviewResult.errorRedirect rid)) := by
  constructor
  · rintro ⟨⟨rv, hrv, h1, h5⟩, ⟨uv, huv, hu0⟩⟩
    refine ⟨rv, uv, hrv, huv, ?_⟩
    unfold add_review
    simp only [hrv, huv]
    rw [if_neg (by omega), if_neg hu0]
  · intro hn
    cases hr : f.rating with
    | none => simp [add_review, hr]
    | some rv =>
      by_cases h0 : rv = 0 ∨ rv < 1 ∨ rv > 5
      · simp [add_review, hr, h0]
      · cases hu : f.user_id with
        | none => simp [add_review, hr, hu, h0]
        | some uv =>
          by_cases hu0 : uv = 0
          · simp [add_review, hr, hu, h0, hu0]
          · exact absurd ⟨⟨rv, hr, by omega, by omega⟩, ⟨uv, hu, hu0⟩⟩ hn

/-- C7 witness: a valid submission inserts exactly one review row. -/
theorem C7_review_validation_witness :
    add_review sampleDb 1 ⟨some 4, " nice ", some 2⟩ =
      ({ sampleDb with reviews := sampleDb.reviews ++
          [⟨nextReviewId sampleDb, 1, some 2, 4, pyStrip " nice ", ""⟩] },
       AddReviewResult.successRedirect 1) := by
  obtain ⟨rv, uv, hrv, huv, heq⟩ :=
    (C7_review_validation sampleDb 1 ⟨some 4, " nice ", some 2⟩).1
      ⟨⟨4, rfl, by norm_num, by norm_num⟩, ⟨2, rfl, by norm_num⟩⟩
  obtain rfl : (4 : Int) = rv := Option.some.inj hrv
  obtain rfl : (2 : Nat) = uv := Option.some.inj huv
  exact heq

/-! ## Claim C8 -/

theorem splitFirstHyphen_append (post : List Char) :
    ∀ pre : List Char, '-' ∉ pre →
      splitFirstHyphen (pre ++ '-' :: post) = some (pre, post) := by
  intro pre
  induction pre with
  | nil => intro _; simp [splitFirstHyphen]
  | cons c cs ih =>
    intro h
    have hc : ¬(c = '-') :=
      fun hh => h (by rw [← hh]; exact List.mem_cons_self c cs)
    have h2 : '-' ∉ cs := fun hh => h (List.mem_cons_of_mem c hh)
    simp [splitFirstHyphen, hc, ih h2, List.cons_append]

theorem splitFirstHyphen_none :
    ∀ l : List Char, '-' ∉ l → splitFirstHyphen l = none := by
  intro l
  induction l with
  | nil => intro _; rfl
  | cons c cs ih =>
    intro h
    have hc : ¬(c = '-') :=
      fun hh => h (by rw [← hh]; exact List.mem_cons_self c cs)
    have h2 : '-' ∉ cs := fun hh => h (List.mem_cons_of_mem c hh)
    simp [splitFirstHyphen, hc, ih h2]

theorem insertRecipeTag_ingredients (rid : Nat) (db : Db) (str : String) :
    (insertRecipeTag rid db str).ingredients = db.ingredients := by
  unfold insertRecipeTag
  split
  · rfl
  · split <;> rfl

theorem foldl_insertRecipeTag_ingredients (rid : Nat) :
    ∀ (l : List String) (db : Db),
      (l.foldl (insertRecipeTag rid) db).ingredients = db.ingredients := by
  intro l
  induction l with
  | nil => intro db; rfl
  | cons x xs ih =>
    intro db
    rw [List.foldl_cons, ih, insertRecipeTag_ingredients]

theorem addIngredientLine_ingredients (rid : Nat) (db : Db)
    (p : String × String) (h : ∃ i ∈ db.ingredients, i.name = p.1) :
    (addIngredientLine rid db p).ingredients = db.ingredients := by
  unfold addIngredientLine
  have hex : db.ingredients.any (fun i => decide (i.name = p.1)) = true := by
    rcases h with ⟨i, hi, hn⟩
    exact List.any_eq_true.mpr ⟨i, hi, by simp [hn]⟩
  have h1 : insertIngredientIfAbsent db p.1 = db := by
    unfold insertIngredientIfAbsent
    rw [if_pos hex]
  rw [h1]
  show (match lookupIngredientId db p.1 with
    | none => db
    | some iid => insertRecipeIngredient db rid iid p.2).ingredients =
      db.ingredients
  cases lookupIngredientId db p.1 with
  | none => rfl
  | some iid =>
    show (insertRecipeIngredient db rid iid p.2).ingredients = db.ingredients
    unfold insertRecipeIngredient
    split <;> rfl

theorem foldl_addIngredientLine_ingredients (rid : Nat) :
    ∀ (l : List (String × String)) (db : Db),
      (∀ p ∈ l, ∃ i ∈ db.ingredients, i.name = p.1) →
      (l.foldl (addIngredientLine rid) db).ingredients = db.ingredients := by
  intro l
  induction l with
  | nil => intro db _; rfl
  | cons p ps ih =>
    intro db h
    rw [List.foldl_cons]
    have h1 := addIngredientLine_ingredients rid db p (h p (List.mem_cons_self p ps))
    have h2 : ∀ q ∈ ps,
        ∃ i ∈ (addIngredientLine rid db p).ingredients, i.name = q.1 := by
      intro q hq
      rw [h1]
      exact h q (List.mem_cons_of_mem p hq)
    rw [ih (addIngredientLine rid db p) h2, h1]

theorem insertRecipeRow_ingredients (db : Db) (f : RecipeForm) :
    (insertRecipeRow db f).ingredients = db.ingredients := rfl

theorem insertImageRow_ingredients (rid : Nat) (name url alt : String)
    (db : Db) : (insertImageRow rid name url alt db).ingredients =
      db.ingredients := by
  unfold insertImageRow
  split <;> rfl

theorem add_recipe_ingredients_unchanged (db : Db) (f : RecipeForm)
    (h : ∀ p ∈ parsedIngredients f.ingredients_text,
      ∃ i ∈ db.ingredients, i.name = p.1) :
    (add_recipe db f).1.ingredients = db.ingredients := by
  unfold add_recipe
  by_cases hval : pyStrip f.name = "" ∨ pyStrip f.instructions = ""
  · rw [if_pos hval]
  · rw [if_neg hval]
    show ((parsedIngredients f.ingredients_text).foldl
      (addIngredientLine (nextRecipeId db))
      (f.tags.foldl (insertRecipeTag (nextRecipeId db))
        (insertImageRow (nextRecipeId db) (pyStrip f.name) (pyStrip f.image_url)
          (pyStrip f.image_alt) (insertRecipeRow db f)))).ingredients =
        db.ingredients
    have hD3 : (f.tags.foldl (insertRecipeTag (nextRecipeId db))
        (insertImageRow (nextRecipeId db) (pyStrip f.name) (pyStrip f.image_url)
          (pyStrip f.image_alt) (insertRecipeRow db f))).ingredients =
        db.ingredients := by
      rw [foldl_insertRecipeTag_ingredients, insertImageRow_ingredients,
        insertRecipeRow_ingredients]
    rw [foldl_addIngredientLine_ingredients _ _ _
      (fun p hp => by rw [hD3]; exact h p hp), hD3]

/-- C8: ingredient lines are split on the first hyphen only, trimming
both parts, and a line without hyphen becomes a name with empty
quantity; the text `Rice - 2 cups` then `Garlic` yields exactly the
two associations with quantities `2 cups` and the empty string; and
an ingredient name that already exists is reused, so the ingredient
table does not grow when every submitted name exists. -/
theorem C8_ingredient_parsing_and_reuse :
    (∀ pre post : List Char, '-' ∉ pre →
      parseIngredientLine (pre ++ '-' :: post) =
        (trimChars pre, trimChars post)) ∧
    (∀ line : List Char, '-' ∉ line →
      parseIngredientLine line = (trimChars line, [])) ∧
    parsedIngredients "Rice - 2 cups\nGarlic" =
      [("Rice", "2 cups"), ("Garlic", "")] ∧
    ((add_recipe emptyDb resubForm).1.recipe_ingredients =
      [⟨1, 1, "2 cups"⟩, ⟨1, 2, ""⟩] ∧
     (add_recipe emptyDb resubForm).1.ingredients.map (·.name) =
      ["Rice", "Garlic"]) ∧
    (∀ (db : Db) (f : RecipeForm),
      (∀ p ∈ parsedIngredients f.ingredients_text,
        ∃ i ∈ db.ingredients, i.name = p.1) →
      (add_recipe db f).1.ingredients.length = db.ingredients.length) := by
  refine ⟨?_, ?_, by decide, by decide, ?_⟩
  · intro pre post hpre
    unfold parseIngredientLine
    rw [splitFirstHyphen_append post pre hpre]
  · intro line hline
    unfold parseIngredientLine
    rw [splitFirstHyphen_none line hline]
  · intro db f h
    rw [add_recipe_ingredients_unchanged db f h]

/-- C8 witness: resubmitting the existing names `Rice` and `Garlic`
leaves the ingredient table row count unchanged. -/
theorem C8_ingredient_parsing_and_reuse_witness :
    (add_recipe sampleDb resubForm).1.ingredients.length =
      sampleDb.ingredients.length :=
  C8_ingredient_parsing_and_reuse.2.2.2.2 sampleDb resubForm (by decide)

/-! ## Claim C9 -/

/-- C9: looking up a recipe id that matches no recipe does not raise:
the handler mutates nothing and answers the not-found recovery, a
redirect to the listing view carrying the error notice. -/
theorem C9_unknown_recipe_redirects (db : Db) (rid : Nat)
    (h : ∀ r ∈ db.recipes, r.recipe_id ≠ rid) :
    recipe_detail db rid = (db, DetailResult.notFound) := by
  unfold recipe_detail
  have hnil : db.recipes.filter (fun r => decide (r.recipe_id = rid)) = [] := by
    rw [List.filter_eq_nil_iff]
    intro r hr
    simp [h r hr]
  rw [hnil]
  rfl

/-- C9 witness: the example store has no recipe 99. -/
theorem C9_unknown_recipe_redirects_witness :
    recipe_detail sampleDb 99 = (sampleDb, DetailResult.notFound) :=
  C9_unknown_recipe_redirects sampleDb 99 (by decide)

end MealShare
